import Mathlib

/-!
Verification development for the workspace-scripts repository.

Shallow embedding of the two core engines:
* `tuda_workspace_scripts/remove.py` — safety-gated repository removal
  (`_get_repo_root`, `_collect_worktree_changes`, `_collect_repo_status`,
  `remove_packages`), modelled as pure functions over an oracle environment
  (`RemoveEnv`) that supplies the results of git/package-registry/filesystem
  queries and of interactive confirmations.  Destructive actions and
  confirmation prompts are recorded as an explicit event trace (`REvent`).
* `scripts/hooks/update/50.workspace.py` — parallel synchroniser
  (`_has_commits_not_on_any_remote`, `_remote_head_mainline_ref`,
  `_is_ancestor`, `_is_deleted_branch`, `process_repo`, and the sequential
  reporting phase of `update`), likewise over oracle environments, with the
  reporter's actions recorded as a `UEvent` trace.

Filesystem paths are modelled as resolved component lists (`FsPath`), and the
string manipulation done by the code is modelled on `List Char` so that every
definition evaluates by kernel reduction.
-/

namespace TudaWS

/-! ### Paths and string helpers -/

/-- A resolved filesystem path, as its list of components. -/
abbrev FsPath := List String

/-- Python `Path.is_relative_to` on resolved paths: `base` is a prefix of `p`
(`p == base` included). -/
def isRelativeTo (p base : FsPath) : Bool :=
  base.isPrefixOf p

/-- Python `str(p.relative_to(base))` for `base` a prefix of `p`. -/
def relTo (p base : FsPath) : String :=
  String.intercalate "/" (p.drop base.length)

/-- Python `s.split("/")` at the character level. -/
def splitCharsOnSlash : List Char → List (List Char)
  | [] => [[]]
  | c :: rest =>
    let r := splitCharsOnSlash rest
    if c = '/' then [] :: r
    else
      match r with
      | [] => [[c]]
      | g :: gs => (c :: g) :: gs

/-- Components of a user-supplied item treated as a relative path
(Python `workspace_root / item` appends these components). -/
def splitOnSlash (s : String) : List String :=
  (splitCharsOnSlash s.toList).map String.mk

/-- Python `s.startswith(p)`. -/
def charsStartWith (s p : String) : Bool :=
  p.toList.isPrefixOf s.toList

/-- Python `s[:n]`. -/
def strTake (s : String) (n : Nat) : String :=
  String.mk (s.toList.take n)

/-- Python `s[n:]`. -/
def strDrop (s : String) (n : Nat) : String :=
  String.mk (s.toList.drop n)

/-- Python `c in s` for a single character `c`. -/
def strContainsChar (s : String) (c : Char) : Bool :=
  s.toList.contains c

/-- Whether `needle` occurs as a contiguous run inside the second list. -/
def listHasInfix (needle : List Char) : List Char → Bool
  | [] => needle.isEmpty
  | c :: rest => needle.isPrefixOf (c :: rest) || listHasInfix needle rest

/-- Python `sub in s` (substring test). -/
def strHasSub (s sub : String) : Bool :=
  listHasInfix sub.toList s.toList

/-- Python `s.split("/", 1)[1]`: everything after the first slash. -/
def charsAfterFirstSlash : List Char → List Char
  | [] => []
  | c :: rest => if c = '/' then rest else charsAfterFirstSlash rest

/-- Python `s.split("/", 1)[1]` lifted to strings. -/
def afterFirstSlash (s : String) : String :=
  String.mk (charsAfterFirstSlash s.toList)

/-! ### remove.py — repository status (`RepoStatus`, `_collect_repo_status`) -/

/-- Mirror of the `RepoStatus` dataclass of `remove.py`. -/
structure RepoStatus where
  rel_path : String
  branch : String
  is_git : Bool
  has_changes : Bool
  untracked_count : Nat
  stash_count : Nat
  changes_summary : List String
  unpushed_branches : List String
  local_only_branches : List String
  deleted_upstream_branches : List String
  is_clean : Bool
deriving DecidableEq, Repr

/-- One porcelain status line classified as in `_collect_worktree_changes`:
`xy = line[:2]`, `rest = line[3:] if len(line) > 3 else ""`. -/
def classifyLine (line : String) : String :=
  let xy := strTake line 2
  let rest := if line.length > 3 then strDrop line 3 else ""
  if strContainsChar xy 'R' && strHasSub rest "->" then "Renamed: " ++ rest
  else if strContainsChar xy 'D' then "Deleted: " ++ rest
  else if strContainsChar xy 'A' then "Added: " ++ rest
  else "Modified: " ++ rest

/-- Result of `_collect_worktree_changes`. -/
structure WorktreeChanges where
  summary : List String
  modCount : Nat
  untrackedCount : Nat
deriving DecidableEq, Repr

/-- `_collect_worktree_changes` over the (possibly empty, on a git error)
list of `git status --porcelain=v1` lines. -/
def collect_worktree_changes (out : List String) : WorktreeChanges :=
  out.foldl
    (fun acc line =>
      if line = "" then acc
      else if charsStartWith line "?? " then
        { acc with untrackedCount := acc.untrackedCount + 1 }
      else
        { acc with summary := acc.summary ++ [classifyLine line],
                   modCount := acc.modCount + 1 })
    ⟨[], 0, 0⟩

/-- Oracle for one branch in the `fetch=True` loop of `_collect_repo_status`:
its `tracking_branch()` data, whether `git show-ref --verify` succeeds for the
tracking ref, and the result of the `rev-list --count tracking..branch` call
(`none` = the command raised). -/
structure RTrackingObs where
  remote_head : String
  name : String
  showRefOk : Bool
  revListAhead : Option Nat
deriving DecidableEq, Repr

/-- One local branch as seen by `_collect_repo_status` (`none` tracking =
`branch.tracking_branch()` returned `None`). -/
structure RBranchObs where
  name : String
  tracking : Option RTrackingObs
deriving DecidableEq, Repr

/-- Oracle for all git queries `_collect_repo_status` makes on one repository.
`porcelain = none` and `stashCount = none` model the corresponding git
commands raising `GitCommandError` (the code then uses `[]` resp. `0`). -/
structure RepoGitObs where
  isGit : Bool
  branchLabel : String
  porcelain : Option (List String)
  stashCount : Option Nat
  branches : List RBranchObs
deriving DecidableEq, Repr

/-- The three per-branch lists accumulated by the `fetch=True` loop of
`_collect_repo_status`. -/
structure RemoteBranchFlags where
  unpushed : List String
  localOnly : List String
  deletedUpstream : List String
deriving DecidableEq, Repr

/-- The branch loop of `_collect_repo_status` (only run when `fetch=True`):
no tracking branch → local-only; `show-ref` fails → deleted/unknown upstream;
otherwise count commits ahead (a raised `rev-list` is ignored). -/
def statusBranches (branches : List RBranchObs) : RemoteBranchFlags :=
  branches.foldl
    (fun acc b =>
      match b.tracking with
      | none => { acc with localOnly := acc.localOnly ++ [b.name] }
      | some t =>
        if !t.showRefOk then
          { acc with deletedUpstream := acc.deletedUpstream ++ [b.name] }
        else
          match t.revListAhead with
          | none => acc
          | some n => if 0 < n then { acc with unpushed := acc.unpushed ++ [b.name] } else acc)
    ⟨[], [], []⟩

/-- `_collect_repo_status`: build the `RepoStatus` for one repository from the
git observations, with `has_changes` the disjunction written in the source and
`is_clean = not has_changes`. -/
def collect_repo_status (rel_path : String) (obs : RepoGitObs) (fetch : Bool) : RepoStatus :=
  if !obs.isGit then
    { rel_path := rel_path, branch := "unknown", is_git := false, has_changes := false,
      untracked_count := 0, stash_count := 0, changes_summary := [],
      unpushed_branches := [], local_only_branches := [],
      deleted_upstream_branches := [], is_clean := true }
  else
    let wt := collect_worktree_changes (obs.porcelain.getD [])
    let stash := obs.stashCount.getD 0
    let rb := if fetch then statusBranches obs.branches else ⟨[], [], []⟩
    let hasChanges := decide (0 < wt.modCount) || decide (0 < wt.untrackedCount) ||
      decide (0 < stash) || !rb.unpushed.isEmpty || !rb.localOnly.isEmpty ||
      !rb.deletedUpstream.isEmpty
    { rel_path := rel_path, branch := obs.branchLabel, is_git := true,
      has_changes := hasChanges, untracked_count := wt.untrackedCount,
      stash_count := stash, changes_summary := wt.summary,
      unpushed_branches := rb.unpushed, local_only_branches := rb.localOnly,
      deleted_upstream_branches := rb.deletedUpstream, is_clean := !hasChanges }

/-! ### remove.py — `remove_packages` -/

/-- The three confirmation prompts `remove_packages` can ask for a repository:
the extra-packages prompt of step 2, the local-work warning prompt, and the
final `DELETE <repo>?` prompt. -/
inductive RConfirmKind
  | extra
  | risky
  | finalDelete
deriving DecidableEq, Repr

/-- Observable actions of `remove_packages`: status computation, each
confirmation prompt actually asked, build-artifact cleanup, and the final
recursive deletion (or its failure). Console printing is not an action. -/
inductive REvent
  | extraPrompt (repo : FsPath) (extras : List String)
  | riskyPrompt (repo : FsPath)
  | finalPrompt (repo : FsPath)
  | statusComputed (repo : FsPath)
  | cleaned (repo : FsPath) (pkgs : List String)
  | deleted (repo : FsPath)
  | deleteFailed (repo : FsPath)
deriving DecidableEq, Repr

/-- The repository an event belongs to. -/
def REvent.tag : REvent → FsPath
  | .extraPrompt r _ => r
  | .riskyPrompt r => r
  | .finalPrompt r => r
  | .statusComputed r => r
  | .cleaned r _ => r
  | .deleted r => r
  | .deleteFailed r => r

/-- Oracle environment for `remove_packages`: git repository lookup
(`Repo(..., search_parent_directories=True)`, `none` = not a git repo),
package-name resolution (`get_package_path`), directory existence, the package
registry (`find_packages_in_directory`), per-repository git observations, the
user's answer to each confirmation prompt, and whether `shutil.rmtree`
succeeds. -/
structure RemoveEnv where
  gitRoot : FsPath → Option FsPath
  packagePath : String → Option FsPath
  isDir : FsPath → Bool
  packagesIn : FsPath → List String
  gitObs : FsPath → RepoGitObs
  confirm : FsPath → RConfirmKind → Bool
  rmtreeOk : FsPath → Bool

/-- `_get_repo_root`: the git working-tree root for `p`, but only if `p` lies
under `ws_src` and the root itself equals or lies under `ws_src`. -/
def get_repo_root (env : RemoveEnv) (p ws_src : FsPath) : Option FsPath :=
  if !isRelativeTo p ws_src then none
  else
    match env.gitRoot p with
    | none => none
    | some root =>
      if root = ws_src ∨ isRelativeTo root ws_src then some root else none

/-- Python `list(dict.fromkeys(items))` — deduplicate keeping the first
occurrence of each item in order (accumulator = keys seen so far). -/
def pyDedupAux (seen : List String) : List String → List String
  | [] => []
  | x :: xs =>
    if x ∈ seen then pyDedupAux seen xs
    else x :: pyDedupAux (x :: seen) xs

/-- Python `list(dict.fromkeys(items))`. -/
def pyDedup (items : List String) : List String :=
  pyDedupAux [] items

/-- `repo_map.setdefault(root, []); if item not in repo_map[root]: append`
on an insertion-ordered association list (Python dict semantics). -/
def mapSetdefaultAppend :
    List (FsPath × List String) → FsPath → String → List (FsPath × List String)
  | [], k, item => [(k, [item])]
  | (k', v) :: rest, k, item =>
    if k' = k then (k', if item ∈ v then v else v ++ [item]) :: rest
    else (k', v) :: mapSetdefaultAppend rest k item

/-- `repo_map.setdefault(root, [])` on an insertion-ordered association list. -/
def mapSetdefault :
    List (FsPath × List String) → FsPath → List (FsPath × List String)
  | [], k => [(k, [])]
  | (k', v) :: rest, k =>
    if k' = k then (k', v) :: rest
    else (k', v) :: mapSetdefault rest k

/-- `repos_explicitly_selected.add(x)` on an ordered set. -/
def setInsert (s : List FsPath) (x : FsPath) : List FsPath :=
  if x ∈ s then s else s ++ [x]

/-- State built by step 1 of `remove_packages`: the repo map, the repositories
explicitly selected as whole directories, and the not-found items. -/
structure Resolution where
  repoMap : List (FsPath × List String)
  explicitSel : List FsPath
  missing : List String
deriving DecidableEq, Repr

/-- Step 1 of `remove_packages` (the `for item in items` resolution loop);
`none` models the in-loop `return 1` on an item that resolves to no acceptable
repository root. -/
def resolve_items (env : RemoveEnv) (ws src : FsPath) :
    List String → Resolution → Option Resolution
  | [], acc => some acc
  | item :: rest, acc =>
    match env.packagePath item with
    | some pkgPath =>
      match get_repo_root env pkgPath src with
      | none => none
      | some root =>
        resolve_items env ws src rest
          { acc with repoMap := mapSetdefaultAppend acc.repoMap root item }
    | none =>
      let comps := splitOnSlash item
      let candWs := ws ++ comps
      let candSrc := src ++ comps
      let found : Option FsPath :=
        if env.isDir candWs then some candWs
        else if env.isDir candSrc then some candSrc
        else none
      match found with
      | none => resolve_items env ws src rest { acc with missing := acc.missing ++ [item] }
      | some fp =>
        match get_repo_root env fp src with
        | none => none
        | some root =>
          resolve_items env ws src rest
            { acc with repoMap := mapSetdefault acc.repoMap root,
                       explicitSel := setInsert acc.explicitSel root }

/-- The `extra_pkgs` computation of step 2 of `remove_packages`. -/
def extraPackages (env : RemoveEnv) (root : FsPath) (requested : List String) : List String :=
  (env.packagesIn root).filter (fun p => decide (p ∉ requested))

/-- Result of step 2 of `remove_packages`. -/
structure FinalSelection where
  repos : List (FsPath × List String)
  events : List REvent

/-- Step 2 of `remove_packages`: keep explicitly selected repositories and
repositories with no unrequested packages; otherwise ask the extra-packages
confirmation and drop the repository when it is declined. -/
def build_final (env : RemoveEnv) (explicitSel : List FsPath) :
    List (FsPath × List String) → FinalSelection
  | [] => ⟨[], []⟩
  | (root, requested) :: rest =>
    let tl := build_final env explicitSel rest
    let allPkgs := env.packagesIn root
    if root ∈ explicitSel then ⟨(root, allPkgs) :: tl.repos, tl.events⟩
    else
      let extras := extraPackages env root requested
      if extras.isEmpty then ⟨(root, allPkgs) :: tl.repos, tl.events⟩
      else if env.confirm root .extra then
        ⟨(root, allPkgs) :: tl.repos, .extraPrompt root extras :: tl.events⟩
      else ⟨tl.repos, .extraPrompt root extras :: tl.events⟩

/-- The warn gate of step 3 of `remove_packages`:
`has_local_work or has_unpushed`, i.e. dirty summary, untracked files,
stashes, unpushed branches or local-only branches. -/
def removal_gate (s : RepoStatus) : Bool :=
  !s.changes_summary.isEmpty || decide (0 < s.untracked_count) ||
  decide (0 < s.stash_count) || !s.unpushed_branches.isEmpty ||
  !s.local_only_branches.isEmpty

/-- Step 3 of `remove_packages` after all confirmations passed: clean build
artifacts (when there are packages), then `shutil.rmtree`. -/
def removal_exec (env : RemoveEnv) (root : FsPath) (pkgs : List String) : List REvent :=
  (if pkgs.isEmpty then [] else [REvent.cleaned root pkgs]) ++
  (if env.rmtreeOk root then [REvent.deleted root] else [REvent.deleteFailed root])

/-- Step 3 of `remove_packages` after the warn gate: the unconditional
`DELETE <repo>?` prompt, then execution. -/
def removal_after_gate (env : RemoveEnv) (root : FsPath) (pkgs : List String) : List REvent :=
  REvent.finalPrompt root ::
    (if env.confirm root .finalDelete then removal_exec env root pkgs else [])

/-- Step 3 of `remove_packages` for one repository: the final safety guard,
status computation + report, the local-work warn gate, and deletion. -/
def process_removal (env : RemoveEnv) (fetch : Bool) (ws src root : FsPath)
    (pkgs : List String) : List REvent :=
  if !isRelativeTo root src then []
  else
    REvent.statusComputed root ::
      (if removal_gate (collect_repo_status (relTo root ws) (env.gitObs root) fetch) then
        REvent.riskyPrompt root ::
          (if env.confirm root .risky then removal_after_gate env root pkgs else [])
      else removal_after_gate env root pkgs)

/-- Return code and event trace of one `remove_packages` call. -/
structure RemoveOutcome where
  code : Nat
  events : List REvent
deriving DecidableEq, Repr

/-- `remove_packages(workspace_root, items, fetch_remotes)`. The workspace
root is given as a resolved path (`[]` models an empty/unset workspace
string). -/
def remove_packages (env : RemoveEnv) (workspace_root : FsPath) (items : List String)
    (fetch_remotes : Bool) : RemoveOutcome :=
  if workspace_root = [] then ⟨1, []⟩
  else
    let src := workspace_root ++ ["src"]
    if items.isEmpty then ⟨1, []⟩
    else
      match resolve_items env workspace_root src (pyDedup items) ⟨[], [], []⟩ with
      | none => ⟨1, []⟩
      | some res =>
        if !res.missing.isEmpty then ⟨1, []⟩
        else
          let fin := build_final env res.explicitSel res.repoMap
          ⟨0, fin.events ++
            (fin.repos.map (fun rp =>
              process_removal env fetch_remotes workspace_root src rp.1 rp.2)).flatten⟩

/-! ### 50.workspace.py — branch staleness analyzer -/

/-- A `tracking_branch()` result in the update hook: `remote_name` (`none`
models a falsy/corrupt value) and the full tracking ref name
(e.g. `"origin/feature"`). -/
structure UTracking where
  remoteName : Option String
  name : String
deriving DecidableEq, Repr

/-- One local branch as seen by the update hook. -/
structure UBranchObs where
  name : String
  tracking : Option UTracking
deriving DecidableEq, Repr

/-- Oracle for the git queries `_is_deleted_branch` and its helpers make on
one repository: HEAD state, remote lookup (`none` = `repo.remotes[name]` or
the ref enumeration raised), `git rev-list --count <branch> --not --remotes`
(`none` = `GitCommandError`), `git symbolic-ref -q refs/remotes/<r>/HEAD`
(`none` = `GitCommandError`, otherwise the stripped stdout), and whether
`git merge-base --is-ancestor a b` exits successfully. -/
structure RepoObs where
  headDetached : Bool
  headRefName : String
  remotes : String → Option (List String)
  revListNotRemotes : String → Option Nat
  symbolicRefHead : String → Option String
  mergeBaseOk : String → String → Bool

/-- `_has_commits_not_on_any_remote`: true iff the branch has commits unknown
to any remote; a `GitCommandError` yields `false`. -/
def has_commits_not_on_any_remote (repo : RepoObs) (branch : String) : Bool :=
  match repo.revListNotRemotes branch with
  | none => false
  | some n => decide (0 < n)

/-- `_remote_head_mainline_ref`: resolve `refs/remotes/<remote>/HEAD` to
`<remote>/<branch>`, or `none` when the symbolic ref is missing, empty, or
has an unexpected shape. -/
def remote_head_mainline_ref (repo : RepoObs) (remote : String) : Option String :=
  match repo.symbolicRefHead remote with
  | none => none
  | some sym =>
    if sym = "" then none
    else
      let pfx := "refs/remotes/" ++ remote ++ "/"
      if charsStartWith sym pfx then some (remote ++ "/" ++ strDrop sym pfx.length)
      else none

/-- `_is_ancestor`: `git merge-base --is-ancestor` succeeds; a command error
yields `false`. -/
def is_ancestor (repo : RepoObs) (ancestor descendant : String) : Bool :=
  repo.mergeBaseOk ancestor descendant

/-- `_is_deleted_branch`: `(deletable, warning)` for one branch, with the
check chain of the source in order: no tracking branch; corrupt/absent remote
(warn only on the current branch); tracking ref still present on the remote;
current branch; commits unknown to every remote; unresolvable mainline; not
merged into the mainline; otherwise deletable. -/
def is_deleted_branch (repo : RepoObs) (branch : UBranchObs) : Bool × Option String :=
  match branch.tracking with
  | none => (false, none)
  | some tracking =>
    match tracking.remoteName with
    | none => (false, none)
    | some rname =>
      match repo.remotes rname with
      | none =>
        if repo.headDetached = false ∧ branch.name = repo.headRefName then
          (false, some ("Remote '" ++ rname ++ "' for current branch " ++ branch.name ++
            " does not exist anymore. Skipping deletion."))
        else (false, none)
      | some remoteRefNames =>
        if tracking.name ∈ remoteRefNames then (false, none)
        else if repo.headDetached = false ∧ branch.name = repo.headRefName then
          (false, some ("Current branch " ++ branch.name ++
            " was deleted on the remote. Skipping deletion."))
        else if has_commits_not_on_any_remote repo branch.name then
          (false, some ("Branch " ++ branch.name ++ " was deleted on the remote but still has " ++
            "commits that are not present on any remote."))
        else
          match remote_head_mainline_ref repo rname with
          | none =>
            (false, some ("Branch " ++ branch.name ++ " was deleted on the remote but remote '" ++
              rname ++ "' HEAD mainline could not be resolved. Skipping deletion."))
          | some mainline =>
            if !is_ancestor repo branch.name mainline then
              (false, some ("Branch " ++ branch.name ++
                " was deleted on the remote but is not merged into " ++ mainline ++
                ". Skipping deletion."))
            else (true, none)

/-! ### 50.workspace.py — `process_repo` (parallel worker) -/

/-- Mirror of the `RepoResult` slots class. -/
structure RepoResult where
  path : FsPath
  branch : String
  fetch_ok : Bool
  pull_attempted : Bool
  pull_ok : Bool
  deletable : List String
  warnings : List String
  stdout : String
  stderr : String
  error : Option String
  current_branch_deleted_remote : Bool
  current_branch_remote : Option String
deriving DecidableEq, Repr

/-- The git state `process_repo` sees after its fetch, via `git.Repo`:
HEAD validity/detachment, the checked-out branch and its tracking branch,
whether `git rev-parse <ref>` succeeds, plus the observations used for
stale-branch detection. -/
structure ProcRepoState where
  headValid : Bool
  headDetached : Bool
  headRefName : String
  headSha7 : String
  headTracking : Option UTracking
  revParseOk : String → Bool
  obs : RepoObs
  branches : List UBranchObs

/-- Oracle for one `process_repo` run: the fetch subprocess outcome, whether
`git.Repo(path)` succeeds (`none` = it raised, landing in the catch-all), and
the pull subprocess outcome. -/
structure ProcEnv where
  fetchReturncode : Int
  fetchStdout : String
  fetchStderr : String
  openRepo : Option ProcRepoState
  pullReturncode : Int
  pullStdout : String
  pullStderr : String

/-- Externally visible git operations of one worker, in order. -/
inductive PAction
  | fetch
  | pull
  | analyze (branch : String)
deriving DecidableEq, Repr

/-- The current-branch-deleted-on-remote detection of `process_repo`
(step 4): returns the flag and `current_branch_remote`. Remote lookup errors
are ignored for this optional check. -/
def currentBranchDeletedInfo (st : ProcRepoState) : Bool × Option String :=
  if st.headDetached then (false, none)
  else
    match st.headTracking with
    | none => (false, none)
    | some t =>
      match t.remoteName with
      | none => (false, none)
      | some rn =>
        match st.obs.remotes rn with
        | none => (false, some rn)
        | some refNames => (decide (t.name ∉ refNames), some rn)

/-- The stale-branch loop of `process_repo`: deletable branch names and
accumulated warnings. -/
def staleScan (st : ProcRepoState) : List String × List String :=
  st.branches.foldl
    (fun acc br =>
      let r := is_deleted_branch st.obs br
      (acc.1 ++ (if r.1 then [br.name] else []),
       acc.2 ++ (match r.2 with | some w => [w] | none => [])))
    ([], [])

/-- `process_repo` result plus the ordered trace of git operations it ran. -/
structure ProcOutcome where
  result : RepoResult
  trace : List PAction

/-- `process_repo`: fetch, open the repository, fast-forward pull of the
current branch when it has a resolvable upstream, then stale-branch detection
(only on a successful fetch). A raised exception (modelled by
`openRepo = none`) produces the catch-all error result. -/
def process_repo (env : ProcEnv) (path : FsPath) : ProcOutcome :=
  let fetchOk := decide (env.fetchReturncode = 0)
  match env.openRepo with
  | none =>
    ⟨{ path := path, branch := "?", fetch_ok := false, pull_attempted := false,
       pull_ok := false, deletable := [], warnings := [], stdout := "", stderr := "",
       error := some "exception", current_branch_deleted_remote := false,
       current_branch_remote := none }, [.fetch]⟩
  | some st =>
    if !st.headValid then
      ⟨{ path := path, branch := "no-HEAD", fetch_ok := fetchOk, pull_attempted := false,
         pull_ok := true, deletable := [], warnings := [], stdout := env.fetchStdout,
         stderr := env.fetchStderr, error := none, current_branch_deleted_remote := false,
         current_branch_remote := none }, [.fetch]⟩
    else
      let branchName := if st.headDetached then "detached@" ++ st.headSha7 else st.headRefName
      let pullAttempted :=
        !st.headDetached &&
          (match st.headTracking with
           | none => false
           | some up => st.revParseOk up.name)
      let pullOk := if pullAttempted then decide (env.pullReturncode = 0) else true
      let cbd := if fetchOk then currentBranchDeletedInfo st else (false, none)
      let scan := if fetchOk then staleScan st else ([], [])
      ⟨{ path := path, branch := branchName, fetch_ok := fetchOk,
         pull_attempted := pullAttempted, pull_ok := pullOk,
         deletable := scan.1, warnings := scan.2,
         stdout := env.fetchStdout ++ (if pullAttempted then env.pullStdout else ""),
         stderr := env.fetchStderr ++ (if pullAttempted then env.pullStderr else ""),
         error := none, current_branch_deleted_remote := cbd.1,
         current_branch_remote := cbd.2 },
       [PAction.fetch] ++ (if pullAttempted then [PAction.pull] else []) ++
         (if fetchOk then st.branches.map (fun b => PAction.analyze b.name) else [])⟩

/-! ### 50.workspace.py — sequential reporting phase of `update` -/

/-- Observable actions of the sequential phase: the per-repository report
header, the interactive mainline checkout, and local branch deletions. -/
inductive UEvent
  | reported (path : FsPath)
  | checkedOut (path : FsPath) (branch : String)
  | branchDeleted (path : FsPath) (branch : String)
  | branchDeleteFailed (path : FsPath) (branch : String)
deriving DecidableEq, Repr

/-- The repository state the interactive stale-HEAD block sees: `pre` is the
state at `git.Repo(res.path)` (before the offered checkout), `post` the state
after checkout + pull, used by the `_is_deleted_branch` re-check, together
with the branch list and per-branch data it reads then. -/
structure InteractiveRepo where
  pre : RepoObs
  post : RepoObs
  postBranchNames : List String
  postBranch : String → UBranchObs

/-- Oracle for the sequential phase: reopening a repository for the
interactive block (`none` = `git.Repo` raised), the three confirmation
prompts, the checkout and post-checkout pull subprocess return codes, and
whether `repo.delete_head(branch, force=True)` succeeds. -/
structure ReportEnv where
  reopen : FsPath → Option InteractiveRepo
  confirmCheckout : FsPath → Bool
  confirmStaleDelete : FsPath → Bool
  confirmBatchDelete : FsPath → Bool
  checkoutReturncode : FsPath → String → Int
  pull2Returncode : FsPath → Int
  deleteHeadOk : FsPath → String → Bool

/-- Outcome of one step of the sequential phase: contribution to
`overall_ok`, emitted events, and whether the step ended in the `continue`
that skips the rest of this repository's reporting. -/
structure StepOut where
  ok : Bool
  events : List UEvent
  skipRest : Bool
deriving Repr

/-- The interactive block offered when the current branch was deleted on the
remote (checkout of the remote mainline, fast-forward pull, then an offer to
delete the stale branch if `_is_deleted_branch` allows it). -/
def stale_head_offer (env : ReportEnv) (res : RepoResult) (rn : String) : StepOut :=
  match env.reopen res.path with
  | none => ⟨false, [], false⟩
  | some ir =>
    if ir.pre.headDetached then ⟨true, [], true⟩
    else
      let current := ir.pre.headRefName
      match remote_head_mainline_ref ir.pre rn with
      | some mainline =>
        if current ≠ "" then
          if env.confirmCheckout res.path then
            let mainlineLocal := afterFirstSlash mainline
            if env.checkoutReturncode res.path mainlineLocal ≠ 0 then ⟨false, [], false⟩
            else
              let pullOk := decide (env.pull2Returncode res.path = 0)
              let del : Bool × List UEvent :=
                if current ∈ ir.postBranchNames then
                  let r := is_deleted_branch ir.post (ir.postBranch current)
                  if r.1 && env.confirmStaleDelete res.path then
                    if env.deleteHeadOk res.path current then
                      (true, [UEvent.branchDeleted res.path current])
                    else (false, [UEvent.branchDeleteFailed res.path current])
                  else (true, [])
                else (true, [])
              ⟨pullOk && del.1, UEvent.checkedOut res.path mainlineLocal :: del.2, false⟩
          else ⟨true, [], false⟩
        else ⟨true, [], false⟩
      | none => ⟨true, [], false⟩

/-- The deletable-branches block at the end of each repository's report:
one batch confirmation, then per-branch deletion tolerating failures. -/
def delete_deletable (env : ReportEnv) (res : RepoResult) : Bool × List UEvent :=
  if res.deletable.isEmpty then (true, [])
  else if env.confirmBatchDelete res.path then
    res.deletable.foldl
      (fun acc b =>
        if env.deleteHeadOk res.path b then (acc.1, acc.2 ++ [UEvent.branchDeleted res.path b])
        else (false, acc.2 ++ [UEvent.branchDeleteFailed res.path b]))
      (true, [])
  else (true, [])

/-- One iteration of the sequential loop of `update` for one result:
fatal error → flip and stop; fetch failure → flip and stop; otherwise the
pull outcome, the interactive stale-HEAD block when flagged, and the
deletable-branches block. -/
def report_one (env : ReportEnv) (res : RepoResult) : Bool × List UEvent :=
  match res.error with
  | some _ => (false, [UEvent.reported res.path])
  | none =>
    if !res.fetch_ok then (false, [UEvent.reported res.path])
    else
      let pullOk := !res.pull_attempted || res.pull_ok
      match res.current_branch_remote, res.current_branch_deleted_remote with
      | some rn, true =>
        let s := stale_head_offer env res rn
        if s.skipRest then (pullOk && s.ok, UEvent.reported res.path :: s.events)
        else
          let d := delete_deletable env res
          (pullOk && s.ok && d.1, UEvent.reported res.path :: (s.events ++ d.2))
      | _, _ =>
        let d := delete_deletable env res
        (pullOk && d.1, UEvent.reported res.path :: d.2)

/-- The sort key Python uses for `sorted(results, key=lambda r: r.path)`:
a path compares by its rendered string. -/
def pathChars (p : FsPath) : List Char := (String.intercalate "/" p).toList

/-- Lexicographic `≤` on character lists (the string order Python's path
comparison uses). -/
def charListLe : List Char → List Char → Bool
  | [], _ => true
  | _ :: _, [] => false
  | a :: as, b :: bs => if a < b then true else if b < a then false else charListLe as bs

/-- Path order on results. -/
def resultLe (a b : RepoResult) : Prop :=
  charListLe (pathChars a.path) (pathChars b.path) = true

instance : DecidableRel resultLe := fun _ _ => inferInstanceAs (Decidable (_ = true))

instance : IsTotal RepoResult resultLe :=
  ⟨by
    have aux : ∀ x y : List Char, charListLe x y = true ∨ charListLe y x = true := by
      intro x
      induction x with
      | nil => intro y; left; cases y <;> rfl
      | cons a as ih =>
        intro y
        cases y with
        | nil => right; rfl
        | cons b bs =>
          rcases lt_trichotomy a b with h | h | h
          · left; simp [charListLe, h]
          · subst h
            rcases ih bs with h' | h' <;> [left; right] <;>
              simp [charListLe, lt_irrefl, h']
          · right; simp [charListLe, h]
    intro a b
    exact aux (pathChars a.path) (pathChars b.path)⟩

instance : IsTrans RepoResult resultLe :=
  ⟨by
    have aux : ∀ x y z : List Char, charListLe x y = true → charListLe y z = true →
        charListLe x z = true := by
      intro x
      induction x with
      | nil => intro y z _ _; cases z <;> simp [charListLe]
      | cons a as ih =>
        intro y z hxy hyz
        cases y with
        | nil => simp [charListLe] at hxy
        | cons b bs =>
          cases z with
          | nil => simp [charListLe] at hyz
          | cons c cs =>
            simp only [charListLe] at hxy hyz ⊢
            rcases lt_trichotomy a b with hab | hab | hab
            · rcases lt_trichotomy b c with hbc | hbc | hbc
              · simp [lt_trans hab hbc]
              · subst hbc; simp [hab]
              · simp only [if_neg (asymm hbc), if_pos hbc] at hyz
                exact absurd hyz (by simp)
            · subst hab
              rcases lt_trichotomy a c with hac | hac | hac
              · simp [hac]
              · subst hac
                rw [if_neg (lt_irrefl a), if_neg (lt_irrefl a)] at hxy hyz ⊢
                exact ih _ _ hxy hyz
              · simp only [if_neg (asymm hac), if_pos hac] at hyz
                exact absurd hyz (by simp)
            · simp only [if_neg (asymm hab), if_pos hab] at hxy
              exact absurd hxy (by simp)
    intro a b c
    exact aux _ _ _⟩

/-- The deterministic ordering of the reporter: Python's stable
`sorted(results, key=lambda r: r.path)`, modelled by the (stable) insertion
sort under `resultLe`. -/
def report_order (results : List RepoResult) : List RepoResult :=
  results.insertionSort resultLe

/-- One iteration of the aggregation: conjoin the contribution to
`overall_ok` and append the events. -/
def reportStep (env : ReportEnv) (acc : Bool × List UEvent) (res : RepoResult) :
    Bool × List UEvent :=
  (acc.1 && (report_one env res).1, acc.2 ++ (report_one env res).2)

/-- The sequential phase of `update`: fold the per-result reporting over the
path-sorted results, conjoining contributions into `overall_ok` and
concatenating the event traces. -/
def update_sequential (env : ReportEnv) (results : List RepoResult) : Bool × List UEvent :=
  (report_order results).foldl (reportStep env) (true, [])

/-! ### Derived predicates used in the statements -/

/-- Two repository observations that agree on everything except the
mainline-related queries (`symbolic-ref HEAD` resolution and
`merge-base --is-ancestor`). -/
def sameExceptMainline (a b : RepoObs) : Prop :=
  a.headDetached = b.headDetached ∧ a.headRefName = b.headRefName ∧
  a.remotes = b.remotes ∧ a.revListNotRemotes = b.revListNotRemotes

/-- An item on which step 1 of `remove_packages` hard-fails: it resolves (as
a package or as a directory) to no acceptable repository root — not in a git
repository, or the repository root lies outside `src` — or it resolves to
nothing at all. -/
def badItem (env : RemoveEnv) (ws src : FsPath) (item : String) : Bool :=
  match env.packagePath item with
  | some p => (get_repo_root env p src).isNone
  | none =>
    let comps := splitOnSlash item
    if env.isDir (ws ++ comps) then (get_repo_root env (ws ++ comps) src).isNone
    else if env.isDir (src ++ comps) then (get_repo_root env (src ++ comps) src).isNone
    else true

/-- Whether step 2 of `remove_packages` keeps a repo-map entry: explicitly
selected, no unrequested packages, or the extra-packages prompt accepted. -/
def keepRepo (env : RemoveEnv) (explicitSel : List FsPath) (root : FsPath)
    (requested : List String) : Bool :=
  decide (root ∈ explicitSel) || (extraPackages env root requested).isEmpty ||
    env.confirm root RConfirmKind.extra

/-! ### Concrete instances used by witnesses and counterexamples -/

/-- C5 witness repository: `main` checked out, its upstream pruned. -/
def obsC5 : RepoObs :=
  { headDetached := false, headRefName := "main",
    remotes := fun r => if r = "origin" then some ["origin/dev"] else none,
    revListNotRemotes := fun _ => some 0,
    symbolicRefHead := fun _ => none,
    mergeBaseOk := fun _ _ => false }

/-- C5 witness branch: the checked-out `main`, tracking the pruned
`origin/main`. -/
def brC5 : UBranchObs := ⟨"main", some ⟨some "origin", "origin/main"⟩⟩

/-- C6 witness repository: `feature` has 2 commits on no remote; the mainline
checks would pass. -/
def obsC6 : RepoObs :=
  { headDetached := false, headRefName := "main",
    remotes := fun r => if r = "origin" then some ["origin/main"] else none,
    revListNotRemotes := fun b => if b = "feature" then some 2 else some 0,
    symbolicRefHead := fun r => if r = "origin" then some "refs/remotes/origin/main" else none,
    mergeBaseOk := fun _ _ => true }

/-- C6 witness branch: non-current `feature` with pruned upstream. -/
def brC6 : UBranchObs := ⟨"feature", some ⟨some "origin", "origin/feature"⟩⟩

/-- C2 failing repository: the `rev-list --count <branch> --not --remotes`
command fails for every branch; everything else reports `feature` as pruned
and merged into the resolvable mainline. -/
def obsC2 : RepoObs :=
  { headDetached := false, headRefName := "main",
    remotes := fun r => if r = "origin" then some ["origin/main"] else none,
    revListNotRemotes := fun _ => none,
    symbolicRefHead := fun r => if r = "origin" then some "refs/remotes/origin/main" else none,
    mergeBaseOk := fun _ _ => true }

/-- C2 failing branch: non-current `feature` with pruned upstream. -/
def brC2 : UBranchObs := ⟨"feature", some ⟨some "origin", "origin/feature"⟩⟩

/-- C4 counterexample worker environment: the fetch succeeds but
`git.Repo(path)` raises, landing in the catch-all handler. -/
def envC4 : ProcEnv :=
  { fetchReturncode := 0, fetchStdout := "", fetchStderr := "",
    openRepo := none, pullReturncode := 0, pullStdout := "", pullStderr := "" }

/-- C4 witness repository state: valid but detached HEAD (pull skipped). -/
def stC4w : ProcRepoState :=
  { headValid := true, headDetached := true, headRefName := "", headSha7 := "abc1234",
    headTracking := none, revParseOk := fun _ => false,
    obs := { headDetached := true, headRefName := "",
             remotes := fun _ => none, revListNotRemotes := fun _ => none,
             symbolicRefHead := fun _ => none, mergeBaseOk := fun _ _ => false },
    branches := [] }

/-- C4 witness worker environment: everything succeeds, detached HEAD. -/
def envC4w : ProcEnv :=
  { fetchReturncode := 0, fetchStdout := "", fetchStderr := "",
    openRepo := some stC4w, pullReturncode := 0, pullStdout := "", pullStderr := "" }

/-- C7 witness results (distinct repository paths, otherwise identical). -/
def c7a : RepoResult :=
  { path := ["ws", "src", "alpha"], branch := "main", fetch_ok := true,
    pull_attempted := false, pull_ok := true, deletable := [], warnings := [],
    stdout := "", stderr := "", error := none, current_branch_deleted_remote := false,
    current_branch_remote := none }

/-- C7 witness second result. -/
def c7b : RepoResult :=
  { path := ["ws", "src", "beta"], branch := "main", fetch_ok := true,
    pull_attempted := false, pull_ok := true, deletable := [], warnings := [],
    stdout := "", stderr := "", error := none, current_branch_deleted_remote := false,
    current_branch_remote := none }

/-- Clean git observations (used by several removal-side instances). -/
def cleanObs : RepoGitObs :=
  { isGit := true, branchLabel := "main", porcelain := some [], stashCount := some 0,
    branches := [] }

/-- C1 counterexample repository root. -/
def c1Repo : FsPath := ["ws", "src", "r1"]

/-- C1 counterexample git observations: the only flag set is a branch whose
upstream cannot be verified after fetch (`deleted_upstream_branches`), so
`is_clean` is false but the local-work warn gate does not fire. -/
def obsC1 : RepoGitObs :=
  { isGit := true, branchLabel := "main", porcelain := some [], stashCount := some 0,
    branches := [⟨"main", some ⟨"main", "origin/main", false, some 0⟩⟩] }

/-- C1 counterexample environment: one repository `r1` holding exactly the
requested package `pkgA`; the user answers only the final `DELETE?` prompt
with yes (the extra/risky prompts would be declined, but are never asked). -/
def envC1 : RemoveEnv :=
  { gitRoot := fun p => if p = ["ws", "src", "r1", "pkgA"] then some c1Repo else none,
    packagePath := fun i => if i = "pkgA" then some ["ws", "src", "r1", "pkgA"] else none,
    isDir := fun _ => false,
    packagesIn := fun r => if r = c1Repo then ["pkgA"] else [],
    gitObs := fun _ => obsC1,
    confirm := fun _ k => decide (k = RConfirmKind.finalDelete),
    rmtreeOk := fun _ => true }

/-- C1 witness repository root. -/
def c1wRepo : FsPath := ["ws", "src", "r2"]

/-- C1 witness git observations: one untracked file (dirty working tree). -/
def obsC1w : RepoGitObs :=
  { isGit := true, branchLabel := "main", porcelain := some ["?? f"], stashCount := some 0,
    branches := [] }

/-- C1 witness environment: a dirty repository, all prompts answered yes. -/
def envC1w : RemoveEnv :=
  { gitRoot := fun p => if p = ["ws", "src", "r2", "pkgD"] then some c1wRepo else none,
    packagePath := fun i => if i = "pkgD" then some ["ws", "src", "r2", "pkgD"] else none,
    isDir := fun _ => false,
    packagesIn := fun r => if r = c1wRepo then ["pkgD"] else [],
    gitObs := fun _ => obsC1w,
    confirm := fun _ _ => true,
    rmtreeOk := fun _ => true }

/-- C3 counterexample repository root. -/
def c3Repo : FsPath := ["ws", "src", "r3"]

/-- C3 counterexample environment: a clean repository, all prompts answered
yes, but `shutil.rmtree` fails. -/
def envC3 : RemoveEnv :=
  { gitRoot := fun p => if p = ["ws", "src", "r3", "pkgB"] then some c3Repo else none,
    packagePath := fun i => if i = "pkgB" then some ["ws", "src", "r3", "pkgB"] else none,
    isDir := fun _ => false,
    packagesIn := fun r => if r = c3Repo then ["pkgB"] else [],
    gitObs := fun _ => cleanObs,
    confirm := fun _ _ => true,
    rmtreeOk := fun _ => false }

/-- C3 counterexample (completeness direction) repository state seen by the
interactive block: HEAD on `main`, the remote mainline resolvable. -/
def irC3b : InteractiveRepo :=
  { pre := { headDetached := false, headRefName := "main",
             remotes := fun _ => none, revListNotRemotes := fun _ => none,
             symbolicRefHead := fun r =>
               if r = "origin" then some "refs/remotes/origin/main" else none,
             mergeBaseOk := fun _ _ => false },
    post := { headDetached := false, headRefName := "main",
              remotes := fun _ => none, revListNotRemotes := fun _ => none,
              symbolicRefHead := fun _ => none, mergeBaseOk := fun _ _ => false },
    postBranchNames := [],
    postBranch := fun n => ⟨n, none⟩ }

/-- C3 counterexample (completeness direction) reporter environment: the
user accepts the offered mainline checkout and the `git checkout` subprocess
fails (exit code 1); no branch deletion is ever attempted. -/
def envC3b : ReportEnv :=
  { reopen := fun _ => some irC3b, confirmCheckout := fun _ => true,
    confirmStaleDelete := fun _ => false, confirmBatchDelete := fun _ => false,
    checkoutReturncode := fun _ _ => 1, pull2Returncode := fun _ => 0,
    deleteHeadOk := fun _ _ => true }

/-- C3 counterexample (completeness direction) result: fetch succeeded, no
pull attempted, no error, no deletable branches — but the current branch was
deleted on the remote, triggering the interactive offer. -/
def resC3b : RepoResult :=
  { path := ["ws", "src", "x"], branch := "main", fetch_ok := true,
    pull_attempted := false, pull_ok := true, deletable := [], warnings := [],
    stdout := "", stderr := "", error := none, current_branch_deleted_remote := true,
    current_branch_remote := some "origin" }

/-- C3 witness result: a repository whose fetch failed. -/
def resC3w : RepoResult :=
  { path := ["ws", "src", "gamma"], branch := "main", fetch_ok := false,
    pull_attempted := false, pull_ok := true, deletable := [], warnings := [],
    stdout := "", stderr := "boom", error := none, current_branch_deleted_remote := false,
    current_branch_remote := none }

/-- C3 witness reporter environment (everything declined / failing). -/
def envC3r : ReportEnv :=
  { reopen := fun _ => none, confirmCheckout := fun _ => false,
    confirmStaleDelete := fun _ => false, confirmBatchDelete := fun _ => false,
    checkoutReturncode := fun _ _ => 1, pull2Returncode := fun _ => 1,
    deleteHeadOk := fun _ _ => false }

/-- C8 witness environment: package `pkgX` lives under `src`, but its git
repository root is the workspace root itself — outside the `src` subtree. -/
def envC8 : RemoveEnv :=
  { gitRoot := fun p => if p = ["ws", "src", "x", "pkgX"] then some ["ws"] else none,
    packagePath := fun i => if i = "pkgX" then some ["ws", "src", "x", "pkgX"] else none,
    isDir := fun _ => false,
    packagesIn := fun _ => [],
    gitObs := fun _ => cleanObs,
    confirm := fun _ _ => true,
    rmtreeOk := fun _ => true }

/-- C9 witness repository roots. -/
def c9RootA : FsPath := ["ws", "src", "ra"]

/-- C9 second witness repository root. -/
def c9RootB : FsPath := ["ws", "src", "rb"]

/-- C9 witness environment: `pkg1` lives in `ra` together with the
unrequested `pkg2`; `pkg3` is the only package of `rb`. The user declines
the extra-packages prompt for `ra` and accepts everything else. -/
def envC9 : RemoveEnv :=
  { gitRoot := fun p =>
      if p = ["ws", "src", "ra", "pkg1"] then some c9RootA
      else if p = ["ws", "src", "rb", "pkg3"] then some c9RootB
      else none,
    packagePath := fun i =>
      if i = "pkg1" then some ["ws", "src", "ra", "pkg1"]
      else if i = "pkg3" then some ["ws", "src", "rb", "pkg3"]
      else none,
    isDir := fun _ => false,
    packagesIn := fun r =>
      if r = c9RootA then ["pkg1", "pkg2"]
      else if r = c9RootB then ["pkg3"]
      else [],
    gitObs := fun _ => cleanObs,
    confirm := fun r k => !(decide (r = c9RootA) && decide (k = RConfirmKind.extra)),
    rmtreeOk := fun _ => true }

/-! ### Helper lemmas -/

theorem charListLe_antisymm : ∀ {x y : List Char},
    charListLe x y = true → charListLe y x = true → x = y := by
  intro x
  induction x with
  | nil =>
    intro y _ hyx
    cases y with
    | nil => rfl
    | cons b bs => simp [charListLe] at hyx
  | cons a as ih =>
    intro y hxy hyx
    cases y with
    | nil => simp [charListLe] at hxy
    | cons b bs =>
      simp only [charListLe] at hxy hyx
      rcases lt_trichotomy a b with h | h | h
      · rw [if_neg (asymm h), if_pos h] at hyx
        exact absurd hyx (by simp)
      · subst h
        rw [if_neg (lt_irrefl a), if_neg (lt_irrefl a)] at hxy hyx
        rw [ih hxy hyx]
      · rw [if_neg (asymm h), if_pos h] at hxy
        exact absurd hxy (by simp)

theorem sorted_eq_of_perm_of_nodup_paths :
    ∀ {l₁ l₂ : List RepoResult}, l₁.Perm l₂ →
      l₁.Pairwise resultLe → l₂.Pairwise resultLe →
      (l₁.map (fun r => pathChars r.path)).Nodup → l₁ = l₂ := by
  intro l₁
  induction l₁ with
  | nil =>
    intro l₂ hp _ _ _
    exact (hp.symm.eq_nil).symm
  | cons a t₁ ih =>
    intro l₂ hp hs₁ hs₂ hnd
    cases l₂ with
    | nil => exact absurd hp.eq_nil (by simp)
    | cons b t₂ =>
      have hab : a = b := by
        by_contra hne
        have hain : a ∈ b :: t₂ := hp.mem_iff.mp (List.mem_cons_self a t₁)
        have hbin : b ∈ a :: t₁ := hp.symm.mem_iff.mp (List.mem_cons_self b t₂)
        have hat₂ : a ∈ t₂ := by
          rcases List.mem_cons.mp hain with h | h
          · exact absurd h hne
          · exact h
        have hbt₁ : b ∈ t₁ := by
          rcases List.mem_cons.mp hbin with h | h
          · exact absurd h.symm hne
          · exact h
        have h₁ : resultLe a b := (List.pairwise_cons.mp hs₁).1 b hbt₁
        have h₂ : resultLe b a := (List.pairwise_cons.mp hs₂).1 a hat₂
        have heq : pathChars a.path = pathChars b.path := charListLe_antisymm h₁ h₂
        have hmem : pathChars b.path ∈ t₁.map (fun r => pathChars r.path) :=
          List.mem_map.mpr ⟨b, hbt₁, rfl⟩
        have hnotin := (List.nodup_cons.mp hnd).1
        rw [← heq] at hmem
        exact hnotin hmem
      subst hab
      have hpt : t₁.Perm t₂ := hp.cons_inv
      have htl := ih hpt (List.pairwise_cons.mp hs₁).2 (List.pairwise_cons.mp hs₂).2
        (List.nodup_cons.mp hnd).2
      rw [htl]

theorem pyDedupAux_idem : ∀ (l seen : List String),
    pyDedupAux seen (pyDedupAux seen l) = pyDedupAux seen l := by
  intro l
  induction l with
  | nil => intro seen; rfl
  | cons x xs ih =>
    intro seen
    by_cases hx : x ∈ seen
    · simp only [pyDedupAux, if_pos hx]
      exact ih seen
    · simp only [pyDedupAux, if_neg hx]
      rw [ih (x :: seen)]

theorem pyDedup_idem (l : List String) : pyDedup (pyDedup l) = pyDedup l :=
  pyDedupAux_idem l []

theorem pyDedup_isEmpty (l : List String) : (pyDedup l).isEmpty = l.isEmpty := by
  cases l <;> simp [pyDedup, pyDedupAux]

theorem mem_pyDedupAux : ∀ (l seen : List String) (a : String),
    a ∈ pyDedupAux seen l ↔ a ∈ l ∧ a ∉ seen := by
  intro l
  induction l with
  | nil => intro seen a; simp [pyDedupAux]
  | cons x xs ih =>
    intro seen a
    by_cases hx : x ∈ seen
    · rw [pyDedupAux, if_pos hx, ih seen a]
      constructor
      · rintro ⟨h1, h2⟩
        exact ⟨List.mem_cons_of_mem _ h1, h2⟩
      · rintro ⟨h1, h2⟩
        rcases List.mem_cons.mp h1 with rfl | h
        · exact absurd hx h2
        · exact ⟨h, h2⟩
    · rw [pyDedupAux, if_neg hx, List.mem_cons, ih (x :: seen) a]
      constructor
      · rintro (rfl | ⟨h1, h2⟩)
        · exact ⟨List.mem_cons_self a xs, hx⟩
        · exact ⟨List.mem_cons_of_mem _ h1,
            fun hs => h2 (List.mem_cons_of_mem _ hs)⟩
      · rintro ⟨h1, h2⟩
        rcases List.mem_cons.mp h1 with rfl | h
        · exact Or.inl rfl
        · by_cases hax : a = x
          · exact Or.inl hax
          · refine Or.inr ⟨h, fun hs => ?_⟩
            rcases List.mem_cons.mp hs with h' | h'
            · exact hax h'
            · exact h2 h'

theorem mem_pyDedup (l : List String) (a : String) : a ∈ pyDedup l ↔ a ∈ l := by
  simp [pyDedup, mem_pyDedupAux]

theorem resolve_items_missing_extends (env : RemoveEnv) (ws src : FsPath) :
    ∀ (l : List String) (acc res : Resolution),
      resolve_items env ws src l acc = some res →
      ∃ ext, res.missing = acc.missing ++ ext := by
  intro l
  induction l with
  | nil =>
    intro acc res h
    injection h with h
    exact ⟨[], by rw [← h]; simp⟩
  | cons item rest ih =>
    intro acc res h
    rw [resolve_items] at h
    rcases hpp : env.packagePath item with _ | p
    · simp only [hpp] at h
      by_cases h1 : env.isDir (ws ++ splitOnSlash item) = true
      · simp only [h1, if_true] at h
        rcases hroot : get_repo_root env (ws ++ splitOnSlash item) src with _ | r
        · simp only [hroot] at h
          exact absurd h (by simp)
        · simp only [hroot] at h
          have hx := ih _ res h
          exact hx
      · by_cases h2 : env.isDir (src ++ splitOnSlash item) = true
        · simp only [h1, h2, if_true, Bool.false_eq_true, if_false] at h
          rcases hroot : get_repo_root env (src ++ splitOnSlash item) src with _ | r
          · simp only [hroot] at h
            exact absurd h (by simp)
          · simp only [hroot] at h
            have hx := ih _ res h
            exact hx
        · simp only [h1, h2, Bool.false_eq_true, if_false] at h
          obtain ⟨ext, hext⟩ := ih _ res h
          exact ⟨item :: ext, by simp [hext]⟩
    · simp only [hpp] at h
      rcases hroot : get_repo_root env p src with _ | r
      · simp only [hroot] at h
        exact absurd h (by simp)
      · simp only [hroot] at h
        have hx := ih _ res h
        exact hx

theorem resolve_items_bad (env : RemoveEnv) (ws src : FsPath) :
    ∀ (l : List String) (acc : Resolution), (∃ i ∈ l, badItem env ws src i = true) →
      resolve_items env ws src l acc = none ∨
      ∃ res, resolve_items env ws src l acc = some res ∧ res.missing ≠ [] := by
  intro l
  induction l with
  | nil =>
    rintro acc ⟨i, hi, _⟩
    exact absurd hi (List.not_mem_nil i)
  | cons item rest ih =>
    rintro acc ⟨i, hi, hbad⟩
    rw [resolve_items]
    rcases List.mem_cons.mp hi with rfl | hrest
    · rw [badItem] at hbad
      rcases hpp : env.packagePath i with _ | p
      · simp only [hpp] at hbad ⊢
        by_cases h1 : env.isDir (ws ++ splitOnSlash i) = true
        · simp only [h1, if_true] at hbad ⊢
          rcases hroot : get_repo_root env (ws ++ splitOnSlash i) src with _ | r
          · simp only [hroot]
            exact Or.inl trivial
          · rw [hroot] at hbad; simp at hbad
        · by_cases h2 : env.isDir (src ++ splitOnSlash i) = true
          · simp only [h1, h2, if_true, Bool.false_eq_true, if_false] at hbad ⊢
            rcases hroot : get_repo_root env (src ++ splitOnSlash i) src with _ | r
            · simp only [hroot]
              exact Or.inl trivial
            · rw [hroot] at hbad; simp at hbad
          · simp only [h1, h2, Bool.false_eq_true, if_false]
            rcases hres : resolve_items env ws src rest
                { acc with missing := acc.missing ++ [i] } with _ | res
            · exact Or.inl rfl
            · refine Or.inr ⟨res, rfl, ?_⟩
              obtain ⟨ext, hext⟩ := resolve_items_missing_extends env ws src rest _ res hres
              simp [hext]
      · simp only [hpp] at hbad ⊢
        rcases hroot : get_repo_root env p src with _ | r
        · simp only [hroot]
          exact Or.inl trivial
        · rw [hroot] at hbad; simp at hbad
    · rcases hpp : env.packagePath item with _ | p
      · simp only [hpp]
        by_cases h1 : env.isDir (ws ++ splitOnSlash item) = true
        · simp only [h1, if_true]
          rcases hroot : get_repo_root env (ws ++ splitOnSlash item) src with _ | r
          · simp only [hroot]
            exact Or.inl trivial
          · simp only [hroot]
            exact ih _ ⟨i, hrest, hbad⟩
        · by_cases h2 : env.isDir (src ++ splitOnSlash item) = true
          · simp only [h1, h2, if_true, Bool.false_eq_true, if_false]
            rcases hroot : get_repo_root env (src ++ splitOnSlash item) src with _ | r
            · simp only [hroot]
              exact Or.inl trivial
            · simp only [hroot]
              exact ih _ ⟨i, hrest, hbad⟩
          · simp only [h1, h2, Bool.false_eq_true, if_false]
            exact ih _ ⟨i, hrest, hbad⟩
      · simp only [hpp]
        rcases hroot : get_repo_root env p src with _ | r
        · simp only [hroot]
          exact Or.inl trivial
        · simp only [hroot]
          exact ih _ ⟨i, hrest, hbad⟩

theorem removal_exec_tag (env : RemoveEnv) (root : FsPath) (pkgs : List String)
    (e : REvent) (he : e ∈ removal_exec env root pkgs) : e.tag = root := by
  unfold removal_exec at he
  rcases List.mem_append.mp he with h | h
  · split at h
    · simp at h
    · simp at h
      subst h
      rfl
  · split at h
    · simp at h
      subst h
      rfl
    · simp at h
      subst h
      rfl

theorem removal_after_gate_tag (env : RemoveEnv) (root : FsPath) (pkgs : List String)
    (e : REvent) (he : e ∈ removal_after_gate env root pkgs) : e.tag = root := by
  unfold removal_after_gate at he
  rcases List.mem_cons.mp he with rfl | h
  · rfl
  · split at h
    · exact removal_exec_tag env root pkgs e h
    · simp at h

theorem process_removal_tag (env : RemoveEnv) (fetch : Bool) (ws src root : FsPath)
    (pkgs : List String) (e : REvent)
    (he : e ∈ process_removal env fetch ws src root pkgs) : e.tag = root := by
  unfold process_removal at he
  split at he
  · simp at he
  · rcases List.mem_cons.mp he with rfl | h
    · rfl
    · split at h
      · rcases List.mem_cons.mp h with rfl | h'
        · rfl
        · split at h'
          · exact removal_after_gate_tag env root pkgs e h'
          · simp at h'
      · exact removal_after_gate_tag env root pkgs e h

theorem process_removal_deleted_prompts (env : RemoveEnv) (fetch : Bool)
    (ws src root : FsPath) (pkgs : List String) (r' : FsPath)
    (hdel : REvent.deleted r' ∈ process_removal env fetch ws src root pkgs) :
    REvent.finalPrompt root ∈ process_removal env fetch ws src root pkgs ∧
    (removal_gate (collect_repo_status (relTo root ws) (env.gitObs root) fetch) = true →
      REvent.riskyPrompt root ∈ process_removal env fetch ws src root pkgs) := by
  unfold process_removal at hdel ⊢
  by_cases hrel : (!isRelativeTo root src) = true
  · rw [if_pos hrel] at hdel
    simp at hdel
  · rw [if_neg hrel] at hdel ⊢
    by_cases hg : removal_gate
        (collect_repo_status (relTo root ws) (env.gitObs root) fetch) = true
    · rw [if_pos hg] at hdel ⊢
      by_cases hc : env.confirm root RConfirmKind.risky = true
      · rw [if_pos hc] at hdel ⊢
        refine ⟨?_, fun _ => ?_⟩
        · simp [removal_after_gate]
        · simp
      · rw [if_neg hc] at hdel
        simp at hdel
    · rw [if_neg hg] at hdel ⊢
      refine ⟨?_, fun hg' => absurd hg' hg⟩
      simp [removal_after_gate]

theorem build_final_events_shape (env : RemoveEnv) (ex : List FsPath) :
    ∀ (m : List (FsPath × List String)) (e : REvent),
      e ∈ (build_final env ex m).events →
      ∃ r req, (r, req) ∈ m ∧ (r ∈ ex → False) ∧ extraPackages env r req ≠ [] ∧
        e = REvent.extraPrompt r (extraPackages env r req) := by
  intro m
  induction m with
  | nil =>
    intro e he
    simp [build_final] at he
  | cons hd tl ih =>
    intro e he
    rcases hd with ⟨root, requested⟩
    rw [build_final] at he
    by_cases hex : root ∈ ex
    · rw [if_pos hex] at he
      obtain ⟨r, req, hm, h1, h2, h3⟩ := ih e he
      exact ⟨r, req, List.mem_cons_of_mem _ hm, h1, h2, h3⟩
    · rw [if_neg hex] at he
      by_cases hemp : (extraPackages env root requested).isEmpty = true
      · rw [if_pos hemp] at he
        obtain ⟨r, req, hm, h1, h2, h3⟩ := ih e he
        exact ⟨r, req, List.mem_cons_of_mem _ hm, h1, h2, h3⟩
      · rw [if_neg hemp] at he
        have hne : extraPackages env root requested ≠ [] := by
          intro h
          rw [h] at hemp
          exact hemp rfl
        split at he
        · rcases List.mem_cons.mp he with rfl | he'
          · exact ⟨root, requested, List.mem_cons_self _ _, fun h => hex h, hne, rfl⟩
          · obtain ⟨r, req, hm, h1, h2, h3⟩ := ih e he'
            exact ⟨r, req, List.mem_cons_of_mem _ hm, h1, h2, h3⟩
        · rcases List.mem_cons.mp he with rfl | he'
          · exact ⟨root, requested, List.mem_cons_self _ _, fun h => hex h, hne, rfl⟩
          · obtain ⟨r, req, hm, h1, h2, h3⟩ := ih e he'
            exact ⟨r, req, List.mem_cons_of_mem _ hm, h1, h2, h3⟩

theorem remove_packages_step3 (env : RemoveEnv) (ws : FsPath) (items : List String)
    (fetch : Bool) (res : Resolution)
    (hwr : ¬ ws = []) (hie : ¬ items.isEmpty = true)
    (hres : resolve_items env ws (ws ++ ["src"]) (pyDedup items) ⟨[], [], []⟩ = some res)
    (hms : res.missing.isEmpty = true) :
    remove_packages env ws items fetch =
      ⟨0, (build_final env res.explicitSel res.repoMap).events ++
        ((build_final env res.explicitSel res.repoMap).repos.map (fun rp =>
          process_removal env fetch ws (ws ++ ["src"]) rp.1 rp.2)).flatten⟩ := by
  rw [remove_packages, if_neg hwr, if_neg hie]
  simp only [hres, hms, Bool.not_true, Bool.false_eq_true, if_false]

theorem delete_deletable_mono (env : ReportEnv) (res : RepoResult) :
    ∀ (bs : List String) (acc : Bool × List UEvent), acc.1 = false →
      (bs.foldl (fun acc b =>
        if env.deleteHeadOk res.path b then (acc.1, acc.2 ++ [UEvent.branchDeleted res.path b])
        else (false, acc.2 ++ [UEvent.branchDeleteFailed res.path b])) acc).1 = false := by
  intro bs
  induction bs with
  | nil => exact fun acc h => h
  | cons b bs ih =>
    intro acc h
    rw [List.foldl_cons]
    by_cases hd : env.deleteHeadOk res.path b = true
    · rw [if_pos hd]
      exact ih _ h
    · rw [if_neg hd]
      exact ih _ rfl

theorem delete_deletable_bdf_aux (env : ReportEnv) (res : RepoResult) (p : FsPath)
    (b : String) :
    ∀ (bs : List String) (acc : Bool × List UEvent),
      UEvent.branchDeleteFailed p b ∈ (bs.foldl (fun acc b =>
        if env.deleteHeadOk res.path b then (acc.1, acc.2 ++ [UEvent.branchDeleted res.path b])
        else (false, acc.2 ++ [UEvent.branchDeleteFailed res.path b])) acc).2 →
      (bs.foldl (fun acc b =>
        if env.deleteHeadOk res.path b then (acc.1, acc.2 ++ [UEvent.branchDeleted res.path b])
        else (false, acc.2 ++ [UEvent.branchDeleteFailed res.path b])) acc).1 = false ∨
      UEvent.branchDeleteFailed p b ∈ acc.2 := by
  intro bs
  induction bs with
  | nil => exact fun acc h => Or.inr h
  | cons x xs ih =>
    intro acc h
    rw [List.foldl_cons] at h ⊢
    by_cases hd : env.deleteHeadOk res.path x = true
    · rw [if_pos hd] at h ⊢
      rcases ih _ h with hf | hm
      · exact Or.inl hf
      · rcases List.mem_append.mp hm with hm' | hm'
        · exact Or.inr hm'
        · simp at hm'
    · rw [if_neg hd] at h ⊢
      exact Or.inl (delete_deletable_mono env res xs _ rfl)

theorem delete_deletable_bdf (env : ReportEnv) (res : RepoResult) (p : FsPath) (b : String)
    (h : UEvent.branchDeleteFailed p b ∈ (delete_deletable env res).2) :
    (delete_deletable env res).1 = false := by
  by_cases h1 : res.deletable.isEmpty = true
  · rw [delete_deletable, if_pos h1] at h
    simp at h
  · by_cases h2 : env.confirmBatchDelete res.path = true
    · rw [delete_deletable, if_neg h1, if_pos h2] at h ⊢
      rcases delete_deletable_bdf_aux env res p b _ _ h with hf | habs
      · exact hf
      · simp at habs
    · rw [delete_deletable, if_neg h1, if_neg h2] at h
      simp at h

theorem stale_head_offer_bdf (env : ReportEnv) (res : RepoResult) (rn : String)
    (p : FsPath) (b : String)
    (h : UEvent.branchDeleteFailed p b ∈ (stale_head_offer env res rn).events) :
    (stale_head_offer env res rn).ok = false := by
  rcases hro : env.reopen res.path with _ | ir
  · simp [stale_head_offer, hro]
  · by_cases hd : ir.pre.headDetached = true
    · simp only [stale_head_offer, hro, hd, if_true] at h
      simp at h
    · rcases hml : remote_head_mainline_ref ir.pre rn with _ | ml
      · simp only [stale_head_offer, hro, hd, Bool.false_eq_true, if_false, hml] at h
        simp at h
      · by_cases hcur : ir.pre.headRefName = ""
        · simp only [stale_head_offer, hro, hd, Bool.false_eq_true, if_false, hml, hcur,
            ne_eq, not_true_eq_false] at h
          simp at h
        · by_cases hcc : env.confirmCheckout res.path = true
          · by_cases hcr : env.checkoutReturncode res.path (afterFirstSlash ml) ≠ 0
            · simp only [stale_head_offer, hro, hd, Bool.false_eq_true, if_false, hml,
                hcur, ne_eq, not_false_eq_true, if_true, hcc, hcr] at h
              simp at h
            · simp only [stale_head_offer, hro, hd, Bool.false_eq_true, if_false, hml,
                hcur, ne_eq, not_false_eq_true, if_true, hcc, hcr] at h ⊢
              rcases List.mem_cons.mp h with habs | h'
              · exact absurd habs (by simp)
              · by_cases hbn : ir.pre.headRefName ∈ ir.postBranchNames
                · simp only [hbn, if_pos] at h' ⊢
                  by_cases hcd : ((is_deleted_branch ir.post
                      (ir.postBranch ir.pre.headRefName)).1 &&
                      env.confirmStaleDelete res.path) = true
                  · rw [if_pos hcd] at h' ⊢
                    by_cases hdh : env.deleteHeadOk res.path ir.pre.headRefName = true
                    · rw [if_pos hdh] at h'
                      simp at h'
                    · rw [if_neg hdh]
                      simp
                  · rw [if_neg hcd] at h'
                    simp at h'
                · simp only [hbn, if_neg, if_false] at h'
                  simp at h'
          · simp only [stale_head_offer, hro, hd, Bool.false_eq_true, if_false, hml, hcur,
              ne_eq, not_false_eq_true, if_true, hcc] at h
            simp at h

theorem report_one_fetch_fail (env : ReportEnv) (res : RepoResult)
    (hf : res.fetch_ok = false) : (report_one env res).1 = false := by
  rcases herr : res.error with _ | e
  · simp [report_one, herr, hf]
  · simp [report_one, herr]

theorem report_one_pull_fail (env : ReportEnv) (res : RepoResult)
    (ha : res.pull_attempted = true) (hp : res.pull_ok = false) :
    (report_one env res).1 = false := by
  rcases herr : res.error with _ | e
  · rcases hfo : res.fetch_ok with _ | _
    · simp [report_one, herr, hfo]
    · rcases hr : res.current_branch_remote with _ | rn
      · simp [report_one, herr, hfo, hr, ha, hp]
      · rcases hb : res.current_branch_deleted_remote with _ | _
        · simp [report_one, herr, hfo, hr, hb, ha, hp]
        · simp only [report_one, herr, hfo, hr, hb, ha, hp]
          by_cases hskip : (stale_head_offer env res rn).skipRest = true
          · rw [if_pos hskip]
            simp
          · rw [if_neg hskip]
            simp
  · simp [report_one, herr]

theorem report_one_bdf (env : ReportEnv) (res : RepoResult) (p : FsPath) (b : String)
    (h : UEvent.branchDeleteFailed p b ∈ (report_one env res).2) :
    (report_one env res).1 = false := by
  rcases herr : res.error with _ | e
  · rcases hfo : res.fetch_ok with _ | _
    · simp [report_one, herr, hfo]
    · rcases hr : res.current_branch_remote with _ | rn
      · simp only [report_one, herr, hfo, hr] at h ⊢
        rcases List.mem_cons.mp h with habs | h'
        · exact absurd habs (by simp)
        · simp [delete_deletable_bdf env res p b h']
      · rcases hb : res.current_branch_deleted_remote with _ | _
        · simp only [report_one, herr, hfo, hr, hb] at h ⊢
          rcases List.mem_cons.mp h with habs | h'
          · exact absurd habs (by simp)
          · simp [delete_deletable_bdf env res p b h']
        · simp only [report_one, herr, hfo, hr, hb] at h ⊢
          by_cases hskip : (stale_head_offer env res rn).skipRest = true
          · rw [if_pos hskip] at h ⊢
            rcases List.mem_cons.mp h with habs | h'
            · exact absurd habs (by simp)
            · simp [stale_head_offer_bdf env res rn p b h']
          · rw [if_neg hskip] at h ⊢
            rcases List.mem_cons.mp h with habs | h'
            · exact absurd habs (by simp)
            · rcases List.mem_append.mp h' with h'' | h''
              · simp [stale_head_offer_bdf env res rn p b h'']
              · simp [delete_deletable_bdf env res p b h'']
  · simp [report_one, herr]

theorem report_one_reported (env : ReportEnv) (res : RepoResult) :
    UEvent.reported res.path ∈ (report_one env res).2 := by
  rcases herr : res.error with _ | e
  · rcases hfo : res.fetch_ok with _ | _
    · simp [report_one, herr, hfo]
    · rcases hr : res.current_branch_remote with _ | rn
      · simp [report_one, herr, hfo, hr]
      · rcases hb : res.current_branch_deleted_remote with _ | _
        · simp [report_one, herr, hfo, hr, hb]
        · simp only [report_one, herr, hfo, hr, hb]
          by_cases hskip : (stale_head_offer env res rn).skipRest = true
          · rw [if_pos hskip]
            simp
          · rw [if_neg hskip]
            simp
  · simp [report_one, herr]

theorem update_fold_mono (env : ReportEnv) :
    ∀ (l : List RepoResult) (acc : Bool × List UEvent), acc.1 = false →
      (l.foldl (reportStep env) acc).1 = false := by
  intro l
  induction l with
  | nil => exact fun acc h => h
  | cons x xs ih =>
    intro acc h
    rw [List.foldl_cons]
    exact ih _ (by simp [reportStep, h])

theorem update_fold_flip (env : ReportEnv) :
    ∀ (l : List RepoResult) (acc : Bool × List UEvent) (r : RepoResult),
      r ∈ l → (report_one env r).1 = false →
      (l.foldl (reportStep env) acc).1 = false := by
  intro l
  induction l with
  | nil => intro acc r hr _; exact absurd hr (List.not_mem_nil r)
  | cons x xs ih =>
    intro acc r hr hro
    rw [List.foldl_cons]
    rcases List.mem_cons.mp hr with rfl | hr'
    · exact update_fold_mono env xs _ (by simp [reportStep, hro])
    · exact ih _ r hr' hro

theorem update_fold_events (env : ReportEnv) :
    ∀ (l : List RepoResult) (acc : Bool × List UEvent),
      (l.foldl (reportStep env) acc).2 =
        acc.2 ++ (l.map (fun r => (report_one env r).2)).flatten := by
  intro l
  induction l with
  | nil => intro acc; simp
  | cons x xs ih =>
    intro acc
    rw [List.foldl_cons, ih]
    simp [reportStep, List.append_assoc]

theorem isRelativeTo_refl (p : FsPath) : isRelativeTo p p = true := by
  simp [isRelativeTo]

theorem get_repo_root_inSrc (env : RemoveEnv) (p src root : FsPath)
    (h : get_repo_root env p src = some root) : isRelativeTo root src = true := by
  unfold get_repo_root at h
  by_cases h1 : (!isRelativeTo p src) = true
  · rw [if_pos h1] at h
    exact absurd h (by simp)
  · rw [if_neg h1] at h
    rcases hg : env.gitRoot p with _ | r
    · simp [hg] at h
    · simp only [hg] at h
      by_cases h2 : (r = src ∨ isRelativeTo r src = true)
      · rw [if_pos h2] at h
        injection h with h
        rcases h2 with h2 | h2
        · rw [← h, h2]
          exact isRelativeTo_refl src
        · rw [← h]
          exact h2
      · rw [if_neg h2] at h
        exact absurd h (by simp)

theorem keys_mapSetdefaultAppend :
    ∀ (m : List (FsPath × List String)) (k : FsPath) (i : String),
      (mapSetdefaultAppend m k i).map Prod.fst =
        if k ∈ m.map Prod.fst then m.map Prod.fst else m.map Prod.fst ++ [k] := by
  intro m
  induction m with
  | nil => intro k i; simp [mapSetdefaultAppend]
  | cons hd tl ih =>
    intro k i
    rcases hd with ⟨k', v⟩
    by_cases hk : k' = k
    · subst hk
      rw [mapSetdefaultAppend, if_pos rfl]
      simp
    · rw [mapSetdefaultAppend, if_neg hk]
      simp only [List.map_cons, ih]
      by_cases hmem : k ∈ tl.map Prod.fst
      · rw [if_pos hmem, if_pos (List.mem_cons_of_mem _ hmem)]
      · rw [if_neg hmem, if_neg ?_]
        · simp
        · intro hc
          rcases List.mem_cons.mp hc with hc' | hc'
          · exact hk hc'.symm
          · exact hmem hc'

theorem keys_mapSetdefault :
    ∀ (m : List (FsPath × List String)) (k : FsPath),
      (mapSetdefault m k).map Prod.fst =
        if k ∈ m.map Prod.fst then m.map Prod.fst else m.map Prod.fst ++ [k] := by
  intro m
  induction m with
  | nil => intro k; simp [mapSetdefault]
  | cons hd tl ih =>
    intro k
    rcases hd with ⟨k', v⟩
    by_cases hk : k' = k
    · subst hk
      rw [mapSetdefault, if_pos rfl]
      simp
    · rw [mapSetdefault, if_neg hk]
      simp only [List.map_cons, ih]
      by_cases hmem : k ∈ tl.map Prod.fst
      · rw [if_pos hmem, if_pos (List.mem_cons_of_mem _ hmem)]
      · rw [if_neg hmem, if_neg ?_]
        · simp
        · intro hc
          rcases List.mem_cons.mp hc with hc' | hc'
          · exact hk hc'.symm
          · exact hmem hc'

theorem keys_step_preserve (src : FsPath) (ks : List FsPath) (root : FsPath)
    (hnd : ks.Nodup) (hin : ∀ k ∈ ks, isRelativeTo k src = true)
    (hroot : isRelativeTo root src = true) :
    (if root ∈ ks then ks else ks ++ [root]).Nodup ∧
      ∀ k ∈ (if root ∈ ks then ks else ks ++ [root]), isRelativeTo k src = true := by
  by_cases h : root ∈ ks
  · rw [if_pos h]
    exact ⟨hnd, hin⟩
  · rw [if_neg h]
    refine ⟨?_, ?_⟩
    · simp [List.nodup_append, hnd, h]
    · intro k hk
      rcases List.mem_append.mp hk with hk | hk
      · exact hin k hk
      · simp only [List.mem_singleton] at hk
        subst hk
        exact hroot

theorem resolve_items_inv (env : RemoveEnv) (ws src : FsPath) :
    ∀ (l : List String) (acc res : Resolution),
      resolve_items env ws src l acc = some res →
      (acc.repoMap.map Prod.fst).Nodup →
      (∀ k ∈ acc.repoMap.map Prod.fst, isRelativeTo k src = true) →
      (res.repoMap.map Prod.fst).Nodup ∧
        ∀ k ∈ res.repoMap.map Prod.fst, isRelativeTo k src = true := by
  intro l
  induction l with
  | nil =>
    intro acc res h hnd hin
    injection h with h
    subst h
    exact ⟨hnd, hin⟩
  | cons item rest ih =>
    intro acc res h hnd hin
    rw [resolve_items] at h
    rcases hpp : env.packagePath item with _ | p
    · simp only [hpp] at h
      by_cases h1 : env.isDir (ws ++ splitOnSlash item) = true
      · simp only [h1, if_true] at h
        rcases hroot : get_repo_root env (ws ++ splitOnSlash item) src with _ | r
        · simp only [hroot] at h
          exact absurd h (by simp)
        · simp only [hroot] at h
          have hr := get_repo_root_inSrc env _ src r hroot
          have hks := keys_step_preserve src (acc.repoMap.map Prod.fst) r hnd hin hr
          rw [← keys_mapSetdefault acc.repoMap r] at hks
          exact ih _ res h hks.1 hks.2
      · by_cases h2 : env.isDir (src ++ splitOnSlash item) = true
        · simp only [h1, h2, if_true, Bool.false_eq_true, if_false] at h
          rcases hroot : get_repo_root env (src ++ splitOnSlash item) src with _ | r
          · simp only [hroot] at h
            exact absurd h (by simp)
          · simp only [hroot] at h
            have hr := get_repo_root_inSrc env _ src r hroot
            have hks := keys_step_preserve src (acc.repoMap.map Prod.fst) r hnd hin hr
            rw [← keys_mapSetdefault acc.repoMap r] at hks
            exact ih _ res h hks.1 hks.2
        · simp only [h1, h2, Bool.false_eq_true, if_false] at h
          exact ih _ res h hnd hin
    · simp only [hpp] at h
      rcases hroot : get_repo_root env p src with _ | r
      · simp only [hroot] at h
        exact absurd h (by simp)
      · simp only [hroot] at h
        have hr := get_repo_root_inSrc env p src r hroot
        have hks := keys_step_preserve src (acc.repoMap.map Prod.fst) r hnd hin hr
        rw [← keys_mapSetdefaultAppend acc.repoMap r item] at hks
        exact ih _ res h hks.1 hks.2

theorem assoc_value_unique :
    ∀ (m : List (FsPath × List String)) (k : FsPath) (v₁ v₂ : List String),
      (m.map Prod.fst).Nodup → (k, v₁) ∈ m → (k, v₂) ∈ m → v₁ = v₂ := by
  intro m
  induction m with
  | nil =>
    intro k v₁ v₂ _ h
    simp at h
  | cons hd tl ih =>
    intro k v₁ v₂ hnd h₁ h₂
    rcases hd with ⟨k', v⟩
    have hnd' : k' ∉ tl.map Prod.fst ∧ (tl.map Prod.fst).Nodup := by
      rw [List.map_cons] at hnd
      exact List.nodup_cons.mp hnd
    have hnotin : k' ∉ tl.map Prod.fst := hnd'.1
    rcases List.mem_cons.mp h₁ with he₁ | ht₁
    · injection he₁ with hk₁ hv₁
      subst hk₁
      rcases List.mem_cons.mp h₂ with he₂ | ht₂
      · injection he₂ with hk₂ hv₂
        rw [hv₁, hv₂]
      · exact absurd (List.mem_map.mpr ⟨(k, v₂), ht₂, rfl⟩) hnotin
    · rcases List.mem_cons.mp h₂ with he₂ | ht₂
      · injection he₂ with hk₂ hv₂
        subst hk₂
        exact absurd (List.mem_map.mpr ⟨(k, v₁), ht₁, rfl⟩) hnotin
      · exact ih k v₁ v₂ hnd'.2 ht₁ ht₂

theorem build_final_repos_mem (env : RemoveEnv) (ex : List FsPath) :
    ∀ (m : List (FsPath × List String)) (r : FsPath) (pk : List String),
      (r, pk) ∈ (build_final env ex m).repos →
      ∃ req, (r, req) ∈ m ∧ pk = env.packagesIn r ∧ keepRepo env ex r req = true := by
  intro m
  induction m with
  | nil =>
    intro r pk h
    simp [build_final] at h
  | cons hd tl ih =>
    intro r pk h
    rcases hd with ⟨root, requested⟩
    rw [build_final] at h
    by_cases hex : root ∈ ex
    · rw [if_pos hex] at h
      rcases List.mem_cons.mp h with he | ht
      · injection he with hk hv
        subst hk
        exact ⟨requested, List.mem_cons_self _ _, hv, by simp [keepRepo, hex]⟩
      · obtain ⟨req, hm, hpk, hkeep⟩ := ih r pk ht
        exact ⟨req, List.mem_cons_of_mem _ hm, hpk, hkeep⟩
    · rw [if_neg hex] at h
      by_cases hemp : (extraPackages env root requested).isEmpty = true
      · rw [if_pos hemp] at h
        rcases List.mem_cons.mp h with he | ht
        · injection he with hk hv
          subst hk
          exact ⟨requested, List.mem_cons_self _ _, hv, by simp [keepRepo, hemp]⟩
        · obtain ⟨req, hm, hpk, hkeep⟩ := ih r pk ht
          exact ⟨req, List.mem_cons_of_mem _ hm, hpk, hkeep⟩
      · rw [if_neg hemp] at h
        by_cases hcc : env.confirm root RConfirmKind.extra = true
        · rw [if_pos hcc] at h
          rcases List.mem_cons.mp h with he | ht
          · injection he with hk hv
            subst hk
            exact ⟨requested, List.mem_cons_self _ _, hv, by simp [keepRepo, hcc]⟩
          · obtain ⟨req, hm, hpk, hkeep⟩ := ih r pk ht
            exact ⟨req, List.mem_cons_of_mem _ hm, hpk, hkeep⟩
        · rw [if_neg hcc] at h
          obtain ⟨req, hm, hpk, hkeep⟩ := ih r pk h
          exact ⟨req, List.mem_cons_of_mem _ hm, hpk, hkeep⟩

theorem build_final_repos_complete (env : RemoveEnv) (ex : List FsPath) :
    ∀ (m : List (FsPath × List String)) (r : FsPath) (req : List String),
      (r, req) ∈ m → keepRepo env ex r req = true →
      (r, env.packagesIn r) ∈ (build_final env ex m).repos := by
  intro m
  induction m with
  | nil =>
    intro r req h
    simp at h
  | cons hd tl ih =>
    intro r req h hkeep
    rcases hd with ⟨root, requested⟩
    rw [build_final]
    rcases List.mem_cons.mp h with he | ht
    · injection he with hk hv
      subst hk
      subst hv
      by_cases hex : r ∈ ex
      · rw [if_pos hex]
        exact List.mem_cons_self _ _
      · rw [if_neg hex]
        by_cases hemp : (extraPackages env r req).isEmpty = true
        · rw [if_pos hemp]
          exact List.mem_cons_self _ _
        · rw [if_neg hemp]
          have hcc : env.confirm r RConfirmKind.extra = true := by
            simp only [keepRepo, Bool.or_eq_true, decide_eq_true_eq] at hkeep
            rcases hkeep with (h' | h') | h'
            · exact absurd h' hex
            · exact absurd h' hemp
            · exact h'
          rw [if_pos hcc]
          exact List.mem_cons_self _ _
    · by_cases hex : root ∈ ex
      · rw [if_pos hex]
        exact List.mem_cons_of_mem _ (ih r req ht hkeep)
      · rw [if_neg hex]
        by_cases hemp : (extraPackages env root requested).isEmpty = true
        · rw [if_pos hemp]
          exact List.mem_cons_of_mem _ (ih r req ht hkeep)
        · rw [if_neg hemp]
          by_cases hcc : env.confirm root RConfirmKind.extra = true
          · rw [if_pos hcc]
            exact List.mem_cons_of_mem _ (ih r req ht hkeep)
          · rw [if_neg hcc]
            exact ih r req ht hkeep

theorem build_final_events_complete (env : RemoveEnv) (ex : List FsPath) :
    ∀ (m : List (FsPath × List String)) (root : FsPath) (requested : List String),
      (root, requested) ∈ m → root ∉ ex → extraPackages env root requested ≠ [] →
      REvent.extraPrompt root (extraPackages env root requested) ∈
        (build_final env ex m).events := by
  intro m
  induction m with
  | nil =>
    intro root requested h
    simp at h
  | cons hd tl ih =>
    intro root requested h hex hne
    rcases hd with ⟨r', req'⟩
    rw [build_final]
    rcases List.mem_cons.mp h with he | ht
    · injection he with hk hv
      subst hk
      subst hv
      rw [if_neg hex]
      have hemp : ¬ (extraPackages env root requested).isEmpty = true := by
        cases hc : extraPackages env root requested with
        | nil => exact absurd hc hne
        | cons a l => simp [hc]
      rw [if_neg hemp]
      by_cases hcc : env.confirm root RConfirmKind.extra = true
      · rw [if_pos hcc]
        exact List.mem_cons_self _ _
      · rw [if_neg hcc]
        exact List.mem_cons_self _ _
    · by_cases hex' : r' ∈ ex
      · rw [if_pos hex']
        exact ih root requested ht hex hne
      · rw [if_neg hex']
        by_cases hemp : (extraPackages env r' req').isEmpty = true
        · rw [if_pos hemp]
          exact ih root requested ht hex hne
        · rw [if_neg hemp]
          by_cases hcc : env.confirm r' RConfirmKind.extra = true
          · rw [if_pos hcc]
            exact List.mem_cons_of_mem _ (ih root requested ht hex hne)
          · rw [if_neg hcc]
            exact List.mem_cons_of_mem _ (ih root requested ht hex hne)

theorem process_removal_status (env : RemoveEnv) (fetch : Bool) (ws src root : FsPath)
    (pkgs : List String) (hrel : isRelativeTo root src = true) :
    REvent.statusComputed root ∈ process_removal env fetch ws src root pkgs := by
  unfold process_removal
  rw [if_neg (by simp [hrel])]
  exact List.mem_cons_self _ _

theorem delete_fold_all_ok (env : ReportEnv) (res : RepoResult)
    (hdh : ∀ b, env.deleteHeadOk res.path b = true) :
    ∀ (bs : List String) (acc : Bool × List UEvent),
      (bs.foldl (fun acc b =>
        if env.deleteHeadOk res.path b then (acc.1, acc.2 ++ [UEvent.branchDeleted res.path b])
        else (false, acc.2 ++ [UEvent.branchDeleteFailed res.path b])) acc).1 = acc.1 := by
  intro bs
  induction bs with
  | nil => intro acc; rfl
  | cons b bs ih =>
    intro acc
    rw [List.foldl_cons, if_pos (hdh b)]
    exact ih _

theorem delete_deletable_ok (env : ReportEnv) (res : RepoResult)
    (hdh : ∀ b, env.deleteHeadOk res.path b = true) :
    (delete_deletable env res).1 = true := by
  unfold delete_deletable
  by_cases h1 : res.deletable.isEmpty = true
  · rw [if_pos h1]
  · rw [if_neg h1]
    by_cases h2 : env.confirmBatchDelete res.path = true
    · rw [if_pos h2]
      exact delete_fold_all_ok env res hdh res.deletable (true, [])
    · rw [if_neg h2]

theorem stale_head_offer_ok (env : ReportEnv) (res : RepoResult) (rn : String)
    (hro : env.reopen res.path ≠ none)
    (hco : ∀ b, env.checkoutReturncode res.path b = 0)
    (hp2 : env.pull2Returncode res.path = 0)
    (hdh : ∀ b, env.deleteHeadOk res.path b = true) :
    (stale_head_offer env res rn).ok = true := by
  rcases hrr : env.reopen res.path with _ | ir
  · exact absurd hrr hro
  · by_cases hd : ir.pre.headDetached = true
    · simp [stale_head_offer, hrr, hd]
    · rcases hml : remote_head_mainline_ref ir.pre rn with _ | ml
      · simp [stale_head_offer, hrr, hd, hml]
      · by_cases hcur : ir.pre.headRefName = ""
        · simp [stale_head_offer, hrr, hd, hml, hcur]
        · by_cases hcc : env.confirmCheckout res.path = true
          · have hcr : ¬ env.checkoutReturncode res.path (afterFirstSlash ml) ≠ 0 := by
              simp [hco]
            simp only [stale_head_offer, hrr, hd, Bool.false_eq_true, if_false, hml, hcur,
              ne_eq, not_false_eq_true, if_true, hcc, hcr]
            have hdel : (if ir.pre.headRefName ∈ ir.postBranchNames then
                if ((is_deleted_branch ir.post (ir.postBranch ir.pre.headRefName)).1 &&
                    env.confirmStaleDelete res.path) = true then
                  if env.deleteHeadOk res.path ir.pre.headRefName = true then
                    (true, [UEvent.branchDeleted res.path ir.pre.headRefName])
                  else (false, [UEvent.branchDeleteFailed res.path ir.pre.headRefName])
                else ((true : Bool), ([] : List UEvent))
              else ((true : Bool), ([] : List UEvent))).1 = true := by
              by_cases hbn : ir.pre.headRefName ∈ ir.postBranchNames
              · rw [if_pos hbn]
                by_cases hcd : ((is_deleted_branch ir.post
                    (ir.postBranch ir.pre.headRefName)).1 &&
                    env.confirmStaleDelete res.path) = true
                · rw [if_pos hcd, if_pos (hdh ir.pre.headRefName)]
                · rw [if_neg hcd]
              · rw [if_neg hbn]
            rw [hdel]
            simp [hp2]
          · simp [stale_head_offer, hrr, hd, hml, hcur, hcc]

theorem report_one_ok (env : ReportEnv) (res : RepoResult)
    (herr : res.error = none) (hf : res.fetch_ok = true)
    (hp : res.pull_attempted = true → res.pull_ok = true)
    (hro : env.reopen res.path ≠ none)
    (hco : ∀ b, env.checkoutReturncode res.path b = 0)
    (hp2 : env.pull2Returncode res.path = 0)
    (hdh : ∀ b, env.deleteHeadOk res.path b = true) :
    (report_one env res).1 = true := by
  have hpull : (!res.pull_attempted || res.pull_ok) = true := by
    rcases ha : res.pull_attempted with _ | _
    · simp
    · simp [hp ha]
  rcases hr : res.current_branch_remote with _ | rn
  · simp [report_one, herr, hf, hr, hpull, delete_deletable_ok env res hdh]
  · rcases hb : res.current_branch_deleted_remote with _ | _
    · simp [report_one, herr, hf, hr, hb, hpull, delete_deletable_ok env res hdh]
    · simp only [report_one, herr, hf, hr, hb, Bool.not_true, Bool.false_eq_true, if_false]
      have hs := stale_head_offer_ok env res rn hro hco hp2 hdh
      by_cases hskip : (stale_head_offer env res rn).skipRest = true
      · rw [if_pos hskip]
        simp [hpull, hs]
      · rw [if_neg hskip]
        simp [hpull, hs, delete_deletable_ok env res hdh]

theorem update_fold_all_ok (env : ReportEnv) :
    ∀ (l : List RepoResult) (acc : Bool × List UEvent),
      (∀ r ∈ l, (report_one env r).1 = true) →
      (l.foldl (reportStep env) acc).1 = acc.1 := by
  intro l
  induction l with
  | nil => intro acc _; rfl
  | cons x xs ih =>
    intro acc h
    rw [List.foldl_cons, ih _ (fun r hr => h r (List.mem_cons_of_mem _ hr))]
    simp [reportStep, h x (List.mem_cons_self x xs)]

/-! ### Claims about the Branch Staleness Analyzer -/

/-- C5: a branch that is the currently checked-out HEAD branch and whose
upstream tracking ref no longer exists among the remote's refs after fetch is
returned by `_is_deleted_branch` as not deletable, together with the warning
that the current branch was deleted on the remote — never as deletable. -/
theorem c5_current_head_pruned_not_deletable
    (repo : RepoObs) (branch : UBranchObs) (t : UTracking) (rn : String)
    (refs : List String)
    (htrack : branch.tracking = some t) (hrn : t.remoteName = some rn)
    (hremote : repo.remotes rn = some refs) (hpruned : t.name ∉ refs)
    (hhd : repo.headDetached = false) (hhead : branch.name = repo.headRefName) :
    is_deleted_branch repo branch =
      (false, some ("Current branch " ++ branch.name ++
        " was deleted on the remote. Skipping deletion.")) := by
  simp [is_deleted_branch, htrack, hrn, hremote, hpruned, hhd, hhead]

/-- C5 witness: evaluation of `c5_current_head_pruned_not_deletable` on the
concrete checked-out branch `main` with pruned upstream `origin/main`. -/
theorem c5_witness :
    is_deleted_branch obsC5 brC5 =
      (false, some "Current branch main was deleted on the remote. Skipping deletion.") :=
  c5_current_head_pruned_not_deletable obsC5 brC5 ⟨some "origin", "origin/main"⟩ "origin"
    ["origin/dev"] rfl rfl (by decide) (by decide) rfl rfl

/-- C6: a branch whose `rev-list --count <branch> --not --remotes` succeeds
with a positive count is never returned deletable by `_is_deleted_branch`,
and the analyzer's result does not depend on the mainline data (symbolic-ref
HEAD resolution and merge-base ancestry): any two repository observations
that agree on everything except the mainline queries produce the same
result for such a branch. -/
theorem c6_unpushed_not_deletable (repo : RepoObs) (branch : UBranchObs) (n : Nat)
    (hrl : repo.revListNotRemotes branch.name = some n) (hn : 0 < n) :
    (is_deleted_branch repo branch).1 = false ∧
    ∀ repo' : RepoObs, sameExceptMainline repo repo' →
      is_deleted_branch repo' branch = is_deleted_branch repo branch := by
  have hcommits : has_commits_not_on_any_remote repo branch.name = true := by
    simp [has_commits_not_on_any_remote, hrl, hn]
  refine ⟨?_, ?_⟩
  · rcases htr : branch.tracking with _ | t
    · simp [is_deleted_branch, htr]
    · rcases hrn : t.remoteName with _ | rn
      · simp [is_deleted_branch, htr, hrn]
      · rcases hrm : repo.remotes rn with _ | refs
        · simp only [is_deleted_branch, htr, hrn, hrm]
          split <;> simp
        · simp only [is_deleted_branch, htr, hrn, hrm, hcommits]
          split
          · simp
          · split
            · simp
            · simp [hcommits]
  · rintro repo' ⟨hd, hh, hr, hrv⟩
    have hc' : has_commits_not_on_any_remote repo' branch.name = true := by
      simp [has_commits_not_on_any_remote, ← hrv, hrl, hn]
    rcases htr : branch.tracking with _ | t
    · simp [is_deleted_branch, htr]
    · rcases hrn : t.remoteName with _ | rn
      · simp [is_deleted_branch, htr, hrn]
      · rcases hrm : repo.remotes rn with _ | refs
        · have hrm' : repo'.remotes rn = none := by rw [← hr]; exact hrm
          simp [is_deleted_branch, htr, hrn, hrm, hrm', hd, hh]
        · have hrm' : repo'.remotes rn = some refs := by rw [← hr]; exact hrm
          simp only [is_deleted_branch, htr, hrn, hrm, hrm', hc', hcommits]
          simp [hd, hh]

/-- C6 witness: evaluation of `c6_unpushed_not_deletable` on the concrete
branch `feature` carrying 2 commits unknown to every remote. -/
theorem c6_witness :
    (is_deleted_branch obsC6 brC6).1 = false ∧
    ∀ repo' : RepoObs, sameExceptMainline obsC6 repo' →
      is_deleted_branch repo' brC6 = is_deleted_branch obsC6 brC6 :=
  c6_unpushed_not_deletable obsC6 brC6 2 (by decide) (by decide)

/-- C2 (evaluation at the failing input): when the
`rev-list --count <branch> --not --remotes` command fails,
`_has_commits_not_on_any_remote` returns `false`, so the unpushed-commit
safety check passes and `_is_deleted_branch` can still classify the branch
as deletable — a git-command failure resolved to a pass of the check, not to
"cannot prove safety". -/
theorem c2_revlist_failure_passes_check :
    obsC2.revListNotRemotes "feature" = none ∧
    has_commits_not_on_any_remote obsC2 "feature" = false ∧
    is_deleted_branch obsC2 brC2 = (true, none) := by decide

/-! ### Claims about the Parallel Synchronizer worker -/

/-- C4 counterexample: when `git.Repo(path)` raises (catch-all error path),
the result records the pull as not attempted with `pull_ok = False` — not
with the pull-success default `True` the claim states for every
not-attempted pull. -/
theorem c4_counterexample :
    (process_repo envC4 ["ws", "src", "r"]).result.error.isSome = true ∧
    (process_repo envC4 ["ws", "src", "r"]).result.pull_attempted = false ∧
    (process_repo envC4 ["ws", "src", "r"]).result.pull_ok = false := by decide

/-- C4 (amended): a pull is attempted iff the repository opens, HEAD is valid
and not detached, a tracking branch is configured, and that tracking ref is
resolvable after the fetch; when the pull is not attempted and no fatal error
occurred, the result records `pull_ok = True`; and the fetch is the first git
operation of the worker, preceding the pull and all branch analysis. On the
fatal-error path the result records `pull_attempted = False` with
`pull_ok = False` and the error set. -/
theorem c4_pull_gate (env : ProcEnv) (path : FsPath) :
    ((process_repo env path).result.pull_attempted = true ↔
      ∃ st, env.openRepo = some st ∧ st.headValid = true ∧ st.headDetached = false ∧
        ∃ up, st.headTracking = some up ∧ st.revParseOk up.name = true) ∧
    ((process_repo env path).result.error = none →
      (process_repo env path).result.pull_attempted = false →
      (process_repo env path).result.pull_ok = true) ∧
    ((process_repo env path).trace.head? = some PAction.fetch ∧
      PAction.fetch ∉ (process_repo env path).trace.tail) := by
  rcases hor : env.openRepo with _ | st
  · refine ⟨?_, ?_, ?_, ?_⟩
    · simp [process_repo, hor]
    · simp [process_repo, hor]
    · simp [process_repo, hor]
    · simp [process_repo, hor]
  · rcases hv : st.headValid with _ | _
    · refine ⟨?_, ?_, ?_, ?_⟩
      · simp [process_repo, hor, hv]
      · simp [process_repo, hor, hv]
      · simp [process_repo, hor, hv]
      · simp [process_repo, hor, hv]
    · refine ⟨?_, ?_, ?_, ?_⟩
      · simp only [process_repo, hor, hv, Bool.not_true, Bool.false_eq_true, if_false,
          Option.some.injEq, exists_eq_left']
        rcases hd : st.headDetached with _ | _
        · rcases ht : st.headTracking with _ | up
          · simp [ht]
          · simp [ht]
        · simp [hd]
      · intro _ hna
        simp only [process_repo, hor, hv, Bool.not_true, Bool.false_eq_true, if_false] at hna ⊢
        simp [hna]
      · simp [process_repo, hor, hv]
      · simp only [process_repo, hor, hv, Bool.not_true, Bool.false_eq_true, if_false,
          List.singleton_append, List.tail_cons]
        intro hmem
        rcases List.mem_append.mp hmem with h | h
        · split at h
          · simp at h
          · simp at h
        · split at h
          · rcases List.mem_map.mp h with ⟨b, _, hb⟩
            exact PAction.noConfusion hb
          · simp at h

/-- C4 witness: on a repository with a valid but detached HEAD (pull
skipped, no error), `c4_pull_gate` yields `pull_ok = True`. -/
theorem c4_witness :
    (process_repo envC4w ["ws", "src", "r"]).result.pull_ok = true :=
  (c4_pull_gate envC4w ["ws", "src", "r"]).2.1 (by decide) (by decide)

/-! ### Claims about the Result Reporter -/

/-- C7 (with "per-repository sync results" read as what the synchronizer
hands the reporter: one result per repository, i.e. pairwise-distinct
repository paths): the reporter's ordering is the path-sorted order, and it
is identical for every permutation in which the fixed set of results was
collected — two runs producing the same results in any completion order
report them identically. -/
theorem c7_report_order_deterministic (l₁ l₂ : List RepoResult)
    (hperm : l₁.Perm l₂)
    (hnd : (l₁.map (fun r => pathChars r.path)).Nodup) :
    report_order l₁ = report_order l₂ ∧ (report_order l₁).Pairwise resultLe := by
  have hs₁ : (report_order l₁).Pairwise resultLe := List.sorted_insertionSort resultLe l₁
  have hs₂ : (report_order l₂).Pairwise resultLe := List.sorted_insertionSort resultLe l₂
  have hp : (report_order l₁).Perm (report_order l₂) :=
    (List.perm_insertionSort resultLe l₁).trans
      (hperm.trans (List.perm_insertionSort resultLe l₂).symm)
  have hnd' : ((report_order l₁).map (fun r => pathChars r.path)).Nodup :=
    (((List.perm_insertionSort resultLe l₁).map _).nodup_iff).mpr hnd
  exact ⟨sorted_eq_of_perm_of_nodup_paths hp hs₁ hs₂ hnd', hs₁⟩

/-- C7 witness: two concrete results with distinct paths fed to the reporter
in the two possible completion orders produce the same (sorted) report
order. -/
theorem c7_witness :
    report_order [c7a, c7b] = report_order [c7b, c7a] ∧
    (report_order [c7a, c7b]).Pairwise resultLe :=
  c7_report_order_deterministic [c7a, c7b] [c7b, c7a] (List.Perm.swap c7b c7a [])
    (by decide)

/-! ### Claims about the Removal Safety Gate and Deletion Executor -/

/-- C10: calling `remove_packages` with duplicate items behaves identically
to calling it with the duplicates removed (first occurrence kept, order
preserved): the function first deduplicates its item list exactly this way,
so the outcome — return code and the whole trace of resolutions,
confirmations, cleanups and deletions — is unchanged. -/
theorem c10_duplicates_irrelevant (env : RemoveEnv) (workspace_root : FsPath)
    (items : List String) (fetch : Bool) :
    remove_packages env workspace_root items fetch =
      remove_packages env workspace_root (pyDedup items) fetch := by
  unfold remove_packages
  rw [pyDedup_idem, pyDedup_isEmpty]

/-- C8: if some user-specified item is bad — it resolves to no package and
no directory, or the repository root it resolves to is unacceptable (not a
git repository under `src`, or a repository root outside the `src`
subtree) — then `remove_packages` aborts with return code 1 and an empty
event trace: no status computed, no confirmation asked, no artifact cleanup,
no deletion, for any repository. -/
theorem c8_bad_item_aborts_untouched (env : RemoveEnv) (workspace_root : FsPath)
    (items : List String) (fetch : Bool) (item : String)
    (hmem : item ∈ items)
    (hbad : badItem env workspace_root (workspace_root ++ ["src"]) item = true) :
    remove_packages env workspace_root items fetch = ⟨1, []⟩ := by
  by_cases hwr : workspace_root = []
  · simp [remove_packages, hwr]
  · have hie : items.isEmpty = false := by
      cases items with
      | nil => exact absurd hmem (List.not_mem_nil item)
      | cons a l => rfl
    have hmem' : item ∈ pyDedup items := (mem_pyDedup items item).mpr hmem
    rcases resolve_items_bad env workspace_root (workspace_root ++ ["src"]) (pyDedup items)
        ⟨[], [], []⟩ ⟨item, hmem', hbad⟩ with h | ⟨res, hres, hmiss⟩
    · simp only [remove_packages, if_neg hwr, hie, Bool.false_eq_true, if_false, h]
    · have hme : res.missing.isEmpty = false := by
        cases hm : res.missing with
        | nil => exact absurd hm hmiss
        | cons a l => rfl
      simp only [remove_packages, if_neg hwr, hie, Bool.false_eq_true, if_false, hres, hme,
        Bool.not_false, if_true]

/-- C8 witness: `pkgX` resolves to a package path under `src` whose git
repository root is the workspace root itself (outside the `src` subtree);
the whole removal call aborts with code 1 and no events. -/
theorem c8_witness :
    remove_packages envC8 ["ws"] ["pkgX"] false = ⟨1, []⟩ :=
  c8_bad_item_aborts_untouched envC8 ["ws"] ["pkgX"] false "pkgX" (by decide) (by decide)

/-- C1 counterexample: a repository whose only status flag is a
deleted-upstream branch has `is_clean = false`, yet `remove_packages`
reaches the deletion with only the baseline `DELETE <repo>?` confirmation:
the event trace contains no `riskyPrompt`, because the warn gate tests
dirty/stash/unpushed/local-only — not `is_clean`. -/
theorem c1_counterexample :
    (collect_repo_status "src/r1" obsC1 true).is_clean = false ∧
    remove_packages envC1 ["ws"] ["pkgA"] true =
      ⟨0, [REvent.statusComputed c1Repo, REvent.finalPrompt c1Repo,
           REvent.cleaned c1Repo ["pkgA"], REvent.deleted c1Repo]⟩ := by
  decide

/-- C1 (amended): the Deletion Executor never reaches the filesystem
deletion of a repository without the baseline final confirmation having been
asked, and — whenever the repository's computed status shows local work at
risk (non-empty change summary, untracked files, stashes, unpushed or
local-only branches, i.e. `removal_gate`) — without the additional explicit
warning confirmation. The gate the code relies on is `removal_gate`, not
`is_clean`: a repository whose only flag is deleted-upstream branches has
`is_clean = false` but gets no additional confirmation. -/
theorem c1_gate (env : RemoveEnv) (workspace_root : FsPath) (items : List String)
    (fetch : Bool) (root : FsPath)
    (hdel : REvent.deleted root ∈ (remove_packages env workspace_root items fetch).events) :
    REvent.finalPrompt root ∈ (remove_packages env workspace_root items fetch).events ∧
    (removal_gate (collect_repo_status (relTo root workspace_root) (env.gitObs root) fetch) =
        true →
      REvent.riskyPrompt root ∈ (remove_packages env workspace_root items fetch).events) := by
  by_cases hwr : workspace_root = []
  · rw [remove_packages, if_pos hwr] at hdel
    simp at hdel
  · by_cases hie : items.isEmpty = true
    · rw [remove_packages, if_neg hwr, if_pos hie] at hdel
      simp at hdel
    · rcases hres : resolve_items env workspace_root (workspace_root ++ ["src"])
          (pyDedup items) ⟨[], [], []⟩ with _ | res
      · rw [remove_packages, if_neg hwr, if_neg hie] at hdel
        simp only [hres] at hdel
        simp at hdel
      · by_cases hms : res.missing.isEmpty = true
        · rw [remove_packages_step3 env workspace_root items fetch res hwr hie hres hms]
            at hdel ⊢
          simp only [List.mem_append] at hdel ⊢
          rcases hdel with h | h
          · obtain ⟨r, req, _, _, _, heq⟩ :=
              build_final_events_shape env res.explicitSel res.repoMap _ h
            exact absurd heq (by simp)
          · rw [List.mem_flatten] at h
            obtain ⟨s, hs, hmem⟩ := h
            rw [List.mem_map] at hs
            obtain ⟨rp, hrp, rfl⟩ := hs
            obtain ⟨r1, pkgs⟩ := rp
            have htag : root = r1 := process_removal_tag env fetch workspace_root
              (workspace_root ++ ["src"]) r1 pkgs _ hmem
            subst htag
            obtain ⟨hfin, hrisky⟩ := process_removal_deleted_prompts env fetch workspace_root
              (workspace_root ++ ["src"]) root pkgs root hmem
            refine ⟨Or.inr ?_, fun hg => Or.inr ?_⟩
            · rw [List.mem_flatten]
              exact ⟨_, List.mem_map.mpr ⟨(root, pkgs), hrp, rfl⟩, hfin⟩
            · rw [List.mem_flatten]
              exact ⟨_, List.mem_map.mpr ⟨(root, pkgs), hrp, rfl⟩, hrisky hg⟩
        · rw [remove_packages, if_neg hwr, if_neg hie] at hdel
          have hms' : (!res.missing.isEmpty) = true := by
            cases h : res.missing.isEmpty
            · rfl
            · exact absurd h hms
          simp only [hres, hms', if_true] at hdel
          simp at hdel

/-- C1 witness: a dirty repository (one untracked file) is deleted only
after both the warning confirmation and the final confirmation were asked. -/
theorem c1_witness :
    REvent.finalPrompt c1wRepo ∈ (remove_packages envC1w ["ws"] ["pkgD"] true).events ∧
    REvent.riskyPrompt c1wRepo ∈ (remove_packages envC1w ["ws"] ["pkgD"] true).events := by
  have h := c1_gate envC1w ["ws"] ["pkgD"] true c1wRepo (by decide)
  exact ⟨h.1, h.2 (by decide)⟩

/-- C3 counterexample, refuting both directions of the claimed
characterisation at concrete inputs. Forward: in `remove_packages`, a
filesystem-deletion failure (`shutil.rmtree` raising `OSError`) is reported
in the trace but the call still returns 0 — a deletion failure does not flip
the aggregate. Converse ("success otherwise"): a run whose single result has
a successful fetch, no attempted pull, no error and no deletable branch — so
no fetch, pull, or deletion failure occurred, and the trace records only the
report header — still yields aggregate failure, because the offered mainline
checkout subprocess failed. -/
theorem c3_counterexample :
    (remove_packages envC3 ["ws"] ["pkgB"] false =
      ⟨0, [REvent.statusComputed c3Repo, REvent.finalPrompt c3Repo,
           REvent.cleaned c3Repo ["pkgB"], REvent.deleteFailed c3Repo]⟩) ∧
    resC3b.fetch_ok = true ∧ resC3b.pull_attempted = false ∧
    resC3b.error = none ∧ resC3b.deletable = [] ∧
    update_sequential envC3b [resC3b] = (false, [UEvent.reported ["ws", "src", "x"]]) := by
  decide

/-- C3 (amended): in the sequential phase of `update`, the aggregate boolean
is flipped to failure by any per-repository fetch failure, by any attempted
pull that failed, and by any branch-deletion failure, and every repository's
result is still reported (its header appears in the trace) — there is no
early exit. The failure enumeration is larger than the claim's: a recorded
worker error, a failed offered mainline checkout, a failed post-checkout
pull, or an exception re-opening a repository for the interactive block also
flip the aggregate; conversely, when none of these failure kinds occurs —
every result error-free with a successful fetch and no failed attempted
pull, and for every reported repository the re-open succeeds and every
checkout, post-checkout pull and branch deletion succeeds — the aggregate is
success. In `remove_packages`, however, a filesystem-deletion failure is
only reported: whenever the trace records a `deleteFailed`, the return code
is still 0. -/
theorem c3_aggregate :
    (∀ (env : ReportEnv) (results : List RepoResult) (res : RepoResult),
      res ∈ results → res.fetch_ok = false →
      (update_sequential env results).1 = false) ∧
    (∀ (env : ReportEnv) (results : List RepoResult) (res : RepoResult),
      res ∈ results → res.pull_attempted = true → res.pull_ok = false →
      (update_sequential env results).1 = false) ∧
    (∀ (env : ReportEnv) (results : List RepoResult) (p : FsPath) (b : String),
      UEvent.branchDeleteFailed p b ∈ (update_sequential env results).2 →
      (update_sequential env results).1 = false) ∧
    (∀ (env : ReportEnv) (results : List RepoResult) (res : RepoResult),
      res ∈ results →
      UEvent.reported res.path ∈ (update_sequential env results).2) ∧
    (∀ (env : ReportEnv) (results : List RepoResult),
      (∀ res ∈ results,
        res.error = none ∧ res.fetch_ok = true ∧
        (res.pull_attempted = true → res.pull_ok = true) ∧
        env.reopen res.path ≠ none ∧
        (∀ b, env.checkoutReturncode res.path b = 0) ∧
        env.pull2Returncode res.path = 0 ∧
        (∀ b, env.deleteHeadOk res.path b = true)) →
      (update_sequential env results).1 = true) ∧
    (∀ (env : RemoveEnv) (ws : FsPath) (items : List String) (fetch : Bool) (root : FsPath),
      REvent.deleteFailed root ∈ (remove_packages env ws items fetch).events →
      (remove_packages env ws items fetch).code = 0) := by
  refine ⟨?_, ?_, ?_, ?_, ?_, ?_⟩
  · intro env results res hmem hf
    have hros : res ∈ report_order results :=
      (List.perm_insertionSort resultLe results).mem_iff.mpr hmem
    exact update_fold_flip env (report_order results) (true, []) res hros
      (report_one_fetch_fail env res hf)
  · intro env results res hmem ha hp
    have hros : res ∈ report_order results :=
      (List.perm_insertionSort resultLe results).mem_iff.mpr hmem
    exact update_fold_flip env (report_order results) (true, []) res hros
      (report_one_pull_fail env res ha hp)
  · intro env results p b hmem
    rw [update_sequential, update_fold_events] at hmem
    simp only [List.nil_append] at hmem
    rw [List.mem_flatten] at hmem
    obtain ⟨s, hs, hbdf⟩ := hmem
    rw [List.mem_map] at hs
    obtain ⟨r, hr, rfl⟩ := hs
    exact update_fold_flip env (report_order results) (true, []) r hr
      (report_one_bdf env r p b hbdf)
  · intro env results res hmem
    rw [update_sequential, update_fold_events]
    simp only [List.nil_append]
    rw [List.mem_flatten]
    exact ⟨(report_one env res).2,
      List.mem_map.mpr ⟨res, (List.perm_insertionSort resultLe results).mem_iff.mpr hmem, rfl⟩,
      report_one_reported env res⟩
  · intro env results h
    rw [update_sequential]
    refine update_fold_all_ok env (report_order results) (true, []) (fun r hr => ?_)
    obtain ⟨h1, h2, h3, h4, h5, h6, h7⟩ :=
      h r ((List.perm_insertionSort resultLe results).mem_iff.mp hr)
    exact report_one_ok env r h1 h2 h3 h4 h5 h6 h7
  · intro env ws items fetch root hmem
    by_cases hwr : ws = []
    · rw [remove_packages, if_pos hwr] at hmem
      simp at hmem
    · by_cases hie : items.isEmpty = true
      · rw [remove_packages, if_neg hwr, if_pos hie] at hmem
        simp at hmem
      · rcases hres : resolve_items env ws (ws ++ ["src"]) (pyDedup items) ⟨[], [], []⟩
            with _ | res
        · rw [remove_packages, if_neg hwr, if_neg hie] at hmem
          simp only [hres] at hmem
          simp at hmem
        · by_cases hms : res.missing.isEmpty = true
          · rw [remove_packages_step3 env ws items fetch res hwr hie hres hms]
          · rw [remove_packages, if_neg hwr, if_neg hie] at hmem
            have hms' : (!res.missing.isEmpty) = true := by
              cases h : res.missing.isEmpty
              · rfl
              · exact absurd h hms
            simp only [hres, hms', if_true] at hmem
            simp at hmem

/-- C3 witness: a single repository result with a failed fetch flips the
aggregate of the sequential phase to failure. -/
theorem c3_witness :
    (update_sequential envC3r [resC3w]).1 = false :=
  c3_aggregate.1 envC3r [resC3w] resC3w (by decide) (by decide)

/-- C9: when a repository was selected only via package names (not as a
whole directory) and contains packages beyond those requested, and the user
declines the extra-packages confirmation, then the whole call still returns
0, the prompt naming exactly the computed extra packages was asked, that
prompt is the only action touching this repository (no status computation,
no cleanup, no deletion for it), and every other selected repository that
survives step 2 (explicitly selected, no extras, or confirmed) still has its
status computed and is processed. -/
theorem c9_partial_repo_skip (env : RemoveEnv) (workspace_root : FsPath)
    (items : List String) (fetch : Bool) (root : FsPath) (requested : List String)
    (res : Resolution)
    (hwr : ¬ workspace_root = [])
    (hres : resolve_items env workspace_root (workspace_root ++ ["src"]) (pyDedup items)
      ⟨[], [], []⟩ = some res)
    (hnomiss : res.missing = [])
    (hmem : (root, requested) ∈ res.repoMap)
    (hnotex : root ∉ res.explicitSel)
    (hextras : extraPackages env root requested ≠ [])
    (hdecl : env.confirm root RConfirmKind.extra = false) :
    (remove_packages env workspace_root items fetch).code = 0 ∧
    REvent.extraPrompt root (extraPackages env root requested) ∈
      (remove_packages env workspace_root items fetch).events ∧
    (∀ e ∈ (remove_packages env workspace_root items fetch).events,
      e.tag = root → e = REvent.extraPrompt root (extraPackages env root requested)) ∧
    (∀ (root' : FsPath) (requested' : List String), (root', requested') ∈ res.repoMap →
      keepRepo env res.explicitSel root' requested' = true →
      REvent.statusComputed root' ∈ (remove_packages env workspace_root items fetch).events) := by
  have hie : ¬ items.isEmpty = true := by
    intro hie
    have hitems : items = [] := by
      cases items with
      | nil => rfl
      | cons a l => simp at hie
    rw [hitems] at hres
    injection hres with hres
    rw [← hres] at hmem
    simp at hmem
  have hms : res.missing.isEmpty = true := by
    rw [hnomiss]
    rfl
  have hstep := remove_packages_step3 env workspace_root items fetch res hwr hie hres hms
  obtain ⟨hknd, hksrc⟩ := resolve_items_inv env workspace_root (workspace_root ++ ["src"])
    (pyDedup items) ⟨[], [], []⟩ res hres (by simp) (by simp)
  have hempF : (extraPackages env root requested).isEmpty = false := by
    cases hc : extraPackages env root requested with
    | nil => exact absurd hc hextras
    | cons a l => rfl
  have hkeepF : keepRepo env res.explicitSel root requested = false := by
    simp [keepRepo, hnotex, hempF, hdecl]
  rw [hstep]
  refine ⟨rfl, ?_, ?_, ?_⟩
  · exact List.mem_append_left _
      (build_final_events_complete env res.explicitSel res.repoMap root requested hmem
        hnotex hextras)
  · intro e he htag
    rcases List.mem_append.mp he with h | h
    · obtain ⟨r, req, hm, hrex, hrne, heq⟩ :=
        build_final_events_shape env res.explicitSel res.repoMap e h
      subst heq
      have hr : r = root := htag
      subst hr
      have : req = requested := assoc_value_unique res.repoMap r req requested hknd hm hmem
      rw [this]
    · rw [List.mem_flatten] at h
      obtain ⟨s, hs, hmem'⟩ := h
      rw [List.mem_map] at hs
      obtain ⟨⟨r1, pkgs⟩, hrp, rfl⟩ := hs
      have htag' : e.tag = r1 := process_removal_tag env fetch workspace_root
        (workspace_root ++ ["src"]) r1 pkgs e hmem'
      rw [htag] at htag'
      obtain ⟨req', hm', _, hkeep'⟩ :=
        build_final_repos_mem env res.explicitSel res.repoMap r1 pkgs hrp
      rw [← htag'] at hm' hkeep'
      have : req' = requested := assoc_value_unique res.repoMap root req' requested hknd hm' hmem
      rw [this] at hkeep'
      rw [hkeepF] at hkeep'
      exact absurd hkeep' (by simp)
  · intro root' requested' hm' hkeep'
    refine List.mem_append_right _ ?_
    rw [List.mem_flatten]
    refine ⟨_, List.mem_map.mpr
      ⟨(root', env.packagesIn root'),
        build_final_repos_complete env res.explicitSel res.repoMap root' requested' hm' hkeep',
        rfl⟩, ?_⟩
    exact process_removal_status env fetch workspace_root (workspace_root ++ ["src"]) root'
      (env.packagesIn root')
      (hksrc root' (List.mem_map.mpr ⟨(root', requested'), hm', rfl⟩))

/-- C9 witness: `pkg1` lives in `ra` together with the unrequested `pkg2`,
`pkg3` alone in `rb`; the user declines the prompt for `ra`. The call
returns 0, the prompt names `pkg2`, the only `ra` action is that prompt, and
`rb` is still processed. -/
theorem c9_witness :
    (remove_packages envC9 ["ws"] ["pkg1", "pkg3"] false).code = 0 ∧
    REvent.extraPrompt c9RootA ["pkg2"] ∈
      (remove_packages envC9 ["ws"] ["pkg1", "pkg3"] false).events ∧
    (∀ e ∈ (remove_packages envC9 ["ws"] ["pkg1", "pkg3"] false).events,
      e.tag = c9RootA → e = REvent.extraPrompt c9RootA ["pkg2"]) ∧
    REvent.statusComputed c9RootB ∈
      (remove_packages envC9 ["ws"] ["pkg1", "pkg3"] false).events := by
  have h := c9_partial_repo_skip envC9 ["ws"] ["pkg1", "pkg3"] false c9RootA ["pkg1"]
    ⟨[(c9RootA, ["pkg1"]), (c9RootB, ["pkg3"])], [], []⟩
    (by decide) (by decide) (by decide) (by decide) (by decide) (by decide) (by decide)
  exact ⟨h.1, h.2.1, h.2.2.1, h.2.2.2 c9RootB ["pkg3"] (by decide) (by decide)⟩

end TudaWS
